import Mathlib

/-!
Verification of the `recording-calibration` repository.

Audio samples and clock times are modelled as exact rationals, and the JS
number arithmetic of the source is idealised as exact arithmetic on those
rationals.  Square roots appear in the source only in the final score
normalisation `dot / Math.sqrt(xx * yy)` of `estimateLagNormalized`; a score
is therefore kept symbolic: it is either the JS sentinel `-Infinity` or a
pair `(dot, xx*yy)` denoting the real number `dot / Real.sqrt (xx*yy)`,
and the JS comparison `score > bestScore` is decided exactly on that
representation.
-/

/-- Value of `evalLag` in `estimateLagNormalized`: either `-Infinity`, or the
normalized correlation `dot / Math.sqrt(xx * yy)` represented as
`val dot (xx*yy)`. -/
inductive Score where
  | negInf : Score
  | val : ℚ → ℚ → Score
deriving DecidableEq

namespace Score

/-- Denotation of a score as an extended real: `negInf` denotes `-Infinity`
(the bottom element) and `val d e` denotes `d / Real.sqrt e`. -/
noncomputable def toE : Score → EReal
  | negInf => ⊥
  | val d e => (((d : ℝ) / Real.sqrt (e : ℝ) : ℝ) : EReal)

/-- Every score built by the estimator has a positive energy product
(`xx > 1e-12` and `yy > 1e-12` are checked before `val` is produced). -/
def PosEnergy : Score → Prop
  | negInf => True
  | val _ e => 0 < e

/-- Exact decision of the JS float comparison `s₁ > s₂` on scores with
positive energies: sign analysis plus cross-multiplied squares. -/
def gt : Score → Score → Bool
  | negInf, _ => false
  | val _ _, negInf => true
  | val d1 e1, val d2 e2 =>
    if 0 < d1 then
      (if 0 < d2 then decide (d2 ^ 2 * e1 < d1 ^ 2 * e2) else true)
    else
      (if 0 < d2 then false
       else decide (d1 ^ 2 * e2 < d2 ^ 2 * e1))

theorem div_sqrt_lt_div_sqrt {d1 e1 d2 e2 : ℝ} (he1 : 0 < e1) (he2 : 0 < e2) :
    d2 / Real.sqrt e2 < d1 / Real.sqrt e1 ↔
      (if 0 < d1 then (if 0 < d2 then d2 ^ 2 * e1 < d1 ^ 2 * e2 else True)
       else (if 0 < d2 then False else d1 ^ 2 * e2 < d2 ^ 2 * e1)) := by
  have hs1 : 0 < Real.sqrt e1 := Real.sqrt_pos.2 he1
  have hs2 : 0 < Real.sqrt e2 := Real.sqrt_pos.2 he2
  rw [div_lt_div_iff hs2 hs1]
  by_cases h1 : 0 < d1 <;> by_cases h2 : 0 < d2 <;> simp only [h1, h2, if_true, if_false]
  · rw [← pow_lt_pow_iff_left (mul_nonneg h2.le hs1.le) (mul_nonneg h1.le hs2.le) two_ne_zero,
      mul_pow, mul_pow, Real.sq_sqrt he1.le, Real.sq_sqrt he2.le]
  · simp only [iff_true]
    exact lt_of_le_of_lt (mul_nonpos_of_nonpos_of_nonneg (not_lt.1 h2) hs1.le)
      (mul_pos h1 hs2)
  · simp only [iff_false, not_lt]
    exact le_trans (mul_nonpos_of_nonpos_of_nonneg (not_lt.1 h1) hs2.le)
      (mul_nonneg h2.le hs1.le)
  · rw [← neg_lt_neg_iff,
      ← pow_lt_pow_iff_left (neg_nonneg.2 (mul_nonpos_of_nonpos_of_nonneg (not_lt.1 h1) hs2.le))
        (neg_nonneg.2 (mul_nonpos_of_nonpos_of_nonneg (not_lt.1 h2) hs1.le)) two_ne_zero,
      neg_sq, neg_sq, mul_pow, mul_pow, Real.sq_sqrt he1.le, Real.sq_sqrt he2.le]

theorem gt_iff {s1 s2 : Score} (h1 : s1.PosEnergy) (h2 : s2.PosEnergy) :
    gt s1 s2 = true ↔ s2.toE < s1.toE := by
  cases s1 with
  | negInf =>
    cases s2 <;> simp [gt, toE]
  | val d1 e1 =>
    cases s2 with
    | negInf => simp [gt, toE, EReal.bot_lt_coe]
    | val d2 e2 =>
      simp only [PosEnergy] at h1 h2
      have he1 : (0:ℝ) < (e1:ℝ) := by exact_mod_cast h1
      have he2 : (0:ℝ) < (e2:ℝ) := by exact_mod_cast h2
      rw [toE, toE, EReal.coe_lt_coe_iff, div_sqrt_lt_div_sqrt he1 he2]
      have c1 : ((0:ℝ) < (d1:ℝ)) ↔ (0 < d1) := by exact_mod_cast Iff.rfl
      have c2 : ((0:ℝ) < (d2:ℝ)) ↔ (0 < d2) := by exact_mod_cast Iff.rfl
      by_cases hd1 : 0 < d1 <;> by_cases hd2 : 0 < d2 <;>
        simp only [gt, hd1, hd2, if_true, if_false, c1, c2, decide_eq_true_eq] <;>
        constructor <;> intro h <;> first
          | exact_mod_cast h
          | simp_all

theorem toE_eq_bot_iff {s : Score} : s.toE = ⊥ ↔ s = negInf := by
  cases s with
  | negInf => simp [toE]
  | val d e => simp [toE]

theorem bot_lt_toE {s : Score} (h : s ≠ negInf) : (⊥ : EReal) < s.toE := by
  cases s with
  | negInf => exact absurd rfl h
  | val d e => exact EReal.bot_lt_coe _

theorem gt_false_iff {s1 s2 : Score} (h1 : s1.PosEnergy) (h2 : s2.PosEnergy) :
    gt s1 s2 = false ↔ s1.toE ≤ s2.toE := by
  rw [← not_lt, ← gt_iff h1 h2]
  cases gt s1 s2 <;> simp

end Score

/-! Shared utilities of both `estimateLagNormalized` implementations
(`recorder-processor.js` lines 164-174 and `part_000` lines 354-371). -/

/-- JS `toF32` copies its argument into a fresh `Float32Array`
(`a.slice()` / `Float32Array.from(a)`); on immutable values it is the
identity.  The copying discipline itself is modelled by `toF32S` below. -/
def toF32 (a : List ℚ) : List ℚ := a

/-- JS `zeroMean`: subtract the mean of the buffer from every sample
(value semantics of the in-place loop). -/
def zeroMean (a : List ℚ) : List ℚ :=
  let m := a.sum / (a.length : ℚ)
  a.map (fun v => v - m)

theorem zeroMean_length (a : List ℚ) : (zeroMean a).length = a.length := by
  simp [zeroMean]

/-- Array read `a[i]` at an integer index (every index the estimator uses is
in range; out-of-range reads default to 0). -/
def getQ (a : List ℚ) (i : ℤ) : ℚ := a.getD i.toNat 0

theorem getQ_replicate (n : ℕ) (i : ℤ) : getQ (List.replicate n 0) i = 0 := by
  unfold getQ
  rcases lt_or_le i.toNat n with h | h
  · rw [List.getD_eq_getElem _ _ (by simpa using h), List.getElem_replicate]
  · rw [List.getD_eq_default _ _ (by simpa using h)]

/-- Integer range `[lo, lo+1, ..., hi]` (empty when `hi < lo`), the index
sequence of the JS loop `for (let lag = lo; lag <= hi; lag++)`. -/
def intRange (lo hi : ℤ) : List ℤ :=
  (List.range (hi + 1 - lo).toNat).map (fun k : ℕ => lo + (k : ℤ))

theorem mem_intRange {lo hi l : ℤ} : l ∈ intRange lo hi ↔ lo ≤ l ∧ l ≤ hi := by
  unfold intRange
  rw [List.mem_map]
  constructor
  · rintro ⟨k, hk, hkl⟩
    rw [List.mem_range] at hk
    omega
  · rintro ⟨h1, h2⟩
    refine ⟨(l - lo).toNat, ?_, ?_⟩
    · rw [List.mem_range]; omega
    · omega

theorem intRange_pairwise (lo hi : ℤ) : (intRange lo hi).Pairwise (· < ·) := by
  unfold intRange
  rw [List.pairwise_map]
  exact (List.pairwise_lt_range _).imp (fun {a b} hab => by
    show lo + (a:ℤ) < lo + (b:ℤ)
    omega)

theorem intRange_eq_cons {lo hi : ℤ} (h : lo ≤ hi) :
    intRange lo hi = lo :: intRange (lo + 1) hi := by
  unfold intRange
  have h1 : (hi + 1 - lo).toNat = (hi + 1 - (lo + 1)).toNat + 1 := by omega
  rw [h1, List.range_succ_eq_map, List.map_cons, List.map_map]
  simp only [Nat.cast_zero, add_zero]
  refine congrArg (lo :: ·) ?_
  apply List.map_congr_left
  intro k _
  simp only [Function.comp_apply, Nat.cast_succ]
  omega

/-! Embedding of `estimateLagNormalized` (present twice in the source:
`part_000` lines 309-352 with minimum overlap 16, and
`recorder-processor.js` lines 100-154 with minimum overlap 8; apart from
that constant the two function bodies are identical). -/

/-- Overlap length `yEnd - yStart` of the candidate lag in `evalLag`. -/
def overlapLen (x y : List ℚ) (lag : ℤ) : ℤ :=
  min (y.length : ℤ) ((x.length : ℤ) - lag) - max 0 (-lag)

/-- Accumulated `dot` of the `evalLag` loop:
`dot += y[i] * x[i + lag]` over the overlap region. -/
def dotAt (x y : List ℚ) (lag : ℤ) : ℚ :=
  ∑ k ∈ Finset.range (overlapLen x y lag).toNat,
    getQ y (max 0 (-lag) + k) * getQ x (max 0 (-lag) + k + lag)

/-- Accumulated `xx` of the `evalLag` loop: `xx += b * b` with
`b = x[i + lag]`. -/
def xxAt (x y : List ℚ) (lag : ℤ) : ℚ :=
  ∑ k ∈ Finset.range (overlapLen x y lag).toNat,
    getQ x (max 0 (-lag) + k + lag) * getQ x (max 0 (-lag) + k + lag)

/-- Accumulated `yy` of the `evalLag` loop: `yy += a * a` with `a = y[i]`. -/
def yyAt (x y : List ℚ) (lag : ℤ) : ℚ :=
  ∑ k ∈ Finset.range (overlapLen x y lag).toNat,
    getQ y (max 0 (-lag) + k) * getQ y (max 0 (-lag) + k)

/-- Numeric threshold `1e-12` of the degenerate-energy check. -/
def epsEnergy : ℚ := 1 / 10 ^ 12

/-- The `evalLag` helper: reject the lag when the overlap is below
`minOverlap` samples or either side's energy is `≤ 1e-12`, else return the
normalized correlation `dot / Math.sqrt(xx * yy)`. -/
def evalLagScore (minOverlap : ℤ) (x y : List ℚ) (lag : ℤ) : Score :=
  if overlapLen x y lag < minOverlap then Score.negInf
  else if xxAt x y lag ≤ epsEnergy ∨ yyAt x y lag ≤ epsEnergy then Score.negInf
  else Score.val (dotAt x y lag) (xxAt x y lag * yyAt x y lag)

theorem evalLagScore_posEnergy (minOverlap : ℤ) (x y : List ℚ) (lag : ℤ) :
    (evalLagScore minOverlap x y lag).PosEnergy := by
  unfold evalLagScore
  split
  · trivial
  · split
    · trivial
    · rename_i h
      push_neg at h
      have he : (0:ℚ) < epsEnergy := by norm_num [epsEnergy]
      exact mul_pos (lt_trans he h.1) (lt_trans he h.2)

/-- Search bound of the scan:
`maxLag = min(floor((maxLagMs/1000)*sampleRate), floor(max(x.length, y.length)/2))`. -/
def maxLagOf (x y : List ℚ) (sampleRate maxLagMs : ℚ) : ℤ :=
  min ⌊maxLagMs / 1000 * sampleRate⌋ ((max x.length y.length : ℕ) / 2 : ℕ)

/-- Candidate lags scanned by the loop: `0..maxLag`, or `-maxLag..maxLag`
when `allowNegative` is set. -/
def lagList (maxLag : ℤ) (allowNegative : Bool) : List ℤ :=
  if allowNegative then intRange (-maxLag) maxLag else intRange 0 maxLag

/-- One step of the best-score scan:
JS `if (s > bestScore) { bestScore = s; bestLag = lag; }`. -/
def searchStep (f : ℤ → Score) (b : ℤ × Score) (lag : ℤ) : ℤ × Score :=
  if Score.gt (f lag) b.2 then (lag, f lag) else b

/-- Result record of `estimateLagNormalized`:
`{ lagSamples, lagMs, score }`. -/
structure LagEstimate where
  lagSamples : ℤ
  lagMs : ℚ
  score : Score
deriving DecidableEq

/-- The scan over all candidate lags, starting from
`bestLag = 0, bestScore = -Infinity`. -/
def lagSearch (minOverlap : ℤ) (x y : List ℚ) (sampleRate maxLagMs : ℚ)
    (allowNegative : Bool) : LagEstimate :=
  let best := (lagList (maxLagOf x y sampleRate maxLagMs) allowNegative).foldl
    (searchStep (evalLagScore minOverlap x y)) (0, Score.negInf)
  ⟨best.1, (best.1 : ℚ) / sampleRate * 1000, best.2⟩

/-- The `estimateLagNormalized` of the calibration module (`part_000`):
copy both inputs, remove DC, early-out `{lagSamples: 0, lagMs: 0, score: 0}`
when either input is shorter than 8 samples (a plain score `0` is
`Score.val 0 1`, denoting `0 / sqrt 1 = 0`), else scan with minimum
candidate overlap 16. -/
def estimateLagNormalizedCal (mic ref : List ℚ) (sampleRate maxLagMs : ℚ)
    (allowNegative : Bool) : LagEstimate :=
  let x := zeroMean (toF32 mic)
  let y := zeroMean (toF32 ref)
  if x.length < 8 ∨ y.length < 8 then ⟨0, 0, Score.val 0 1⟩
  else lagSearch 16 x y sampleRate maxLagMs allowNegative

/-- The `estimateLagNormalized` of the recorder-utils module
(`recorder-processor.js`): identical except for minimum candidate
overlap 8. -/
def estimateLagNormalizedRU (mic ref : List ℚ) (sampleRate maxLagMs : ℚ)
    (allowNegative : Bool) : LagEstimate :=
  let x := zeroMean (toF32 mic)
  let y := zeroMean (toF32 ref)
  if x.length < 8 ∨ y.length < 8 then ⟨0, 0, Score.val 0 1⟩
  else lagSearch 8 x y sampleRate maxLagMs allowNegative

/-! Behaviour of the linear best-score scan (`searchStep` fold): the running
maximum is never beaten, and strictly earlier candidates that tie the final
maximum are impossible, i.e. the scan keeps the first maximizer. -/

theorem searchFold_shape (f : ℤ → Score) (lags : List ℤ) (init : ℤ × Score) :
    List.foldl (searchStep f) init lags = init ∨
      ∃ m ∈ lags, List.foldl (searchStep f) init lags = (m, f m) := by
  induction lags generalizing init with
  | nil => exact Or.inl rfl
  | cons l ls ih =>
    rw [List.foldl_cons]
    rcases ih (searchStep f init l) with h | ⟨m, hm, h⟩
    · rw [h]
      unfold searchStep
      split
      · exact Or.inr ⟨l, List.mem_cons_self .., rfl⟩
      · exact Or.inl rfl
    · exact Or.inr ⟨m, List.mem_cons_of_mem _ hm, h⟩

theorem searchFold_posEnergy {f : ℤ → Score} (hf : ∀ l, (f l).PosEnergy)
    (lags : List ℤ) (init : ℤ × Score) (hinit : init.2.PosEnergy) :
    (List.foldl (searchStep f) init lags).2.PosEnergy := by
  rcases searchFold_shape f lags init with h | ⟨m, _, h⟩
  · rw [h]; exact hinit
  · rw [h]; exact hf m

theorem searchFold_max {f : ℤ → Score} (hf : ∀ l, (f l).PosEnergy)
    (lags : List ℤ) (init : ℤ × Score) :
    init.2.PosEnergy →
      init.2.toE ≤ (List.foldl (searchStep f) init lags).2.toE ∧
      ∀ l ∈ lags, (f l).toE ≤ (List.foldl (searchStep f) init lags).2.toE := by
  induction lags generalizing init with
  | nil => intro _; exact ⟨le_refl _, by simp⟩
  | cons l ls ih =>
    intro hinit
    rw [List.foldl_cons]
    by_cases hup : Score.gt (f l) init.2 = true
    · have hlt : init.2.toE < (f l).toE := (Score.gt_iff (hf l) hinit).1 hup
      have hstep : searchStep f init l = (l, f l) := by simp [searchStep, hup]
      rw [hstep]
      obtain ⟨h1, h2⟩ := ih (l, f l) (hf l)
      refine ⟨le_trans hlt.le h1, ?_⟩
      intro m hm
      rcases List.mem_cons.1 hm with rfl | hm
      · exact h1
      · exact h2 m hm
    · have hup2 : Score.gt (f l) init.2 = false := by simpa using hup
      have hle : (f l).toE ≤ init.2.toE := (Score.gt_false_iff (hf l) hinit).1 hup2
      have hstep : searchStep f init l = init := by simp [searchStep, hup2]
      rw [hstep]
      obtain ⟨h1, h2⟩ := ih init hinit
      refine ⟨h1, ?_⟩
      intro m hm
      rcases List.mem_cons.1 hm with rfl | hm
      · exact le_trans hle h1
      · exact h2 m hm

theorem searchFold_strict {f : ℤ → Score} (hf : ∀ l, (f l).PosEnergy)
    (lags : List ℤ) (init : ℤ × Score) :
    init.2.PosEnergy →
      (List.foldl (searchStep f) init lags = init ∨
        init.2.toE < (List.foldl (searchStep f) init lags).2.toE) := by
  induction lags generalizing init with
  | nil => intro _; exact Or.inl rfl
  | cons l ls ih =>
    intro hinit
    rw [List.foldl_cons]
    by_cases hup : Score.gt (f l) init.2 = true
    · have hlt : init.2.toE < (f l).toE := (Score.gt_iff (hf l) hinit).1 hup
      have hstep : searchStep f init l = (l, f l) := by simp [searchStep, hup]
      rw [hstep]
      rcases ih (l, f l) (hf l) with h | h
      · rw [h]; exact Or.inr hlt
      · exact Or.inr (lt_trans hlt h)
    · have hup2 : Score.gt (f l) init.2 = false := by simpa using hup
      have hstep : searchStep f init l = init := by simp [searchStep, hup2]
      rw [hstep]
      exact ih init hinit

theorem searchFold_first {f : ℤ → Score} (hf : ∀ l, (f l).PosEnergy)
    (lags : List ℤ) (init : ℤ × Score) :
    init.2.PosEnergy → lags.Pairwise (· < ·) →
      (init.2 = Score.negInf ∨ ∀ m ∈ lags, init.1 < m) →
      ∀ l ∈ lags, l < (List.foldl (searchStep f) init lags).1 →
        (f l).toE < (List.foldl (searchStep f) init lags).2.toE ∨
          ((f l) = Score.negInf ∧
            (List.foldl (searchStep f) init lags).2 = Score.negInf) := by
  induction lags generalizing init with
  | nil => intro _ _ _ l hl; cases hl
  | cons l0 ls ih =>
    intro hinit hsort hside l hl hlt
    rw [List.foldl_cons] at hlt ⊢
    have hpw := List.pairwise_cons.1 hsort
    by_cases hup : Score.gt (f l0) init.2 = true
    · have hstep : searchStep f init l0 = (l0, f l0) := by simp [searchStep, hup]
      rw [hstep] at hlt ⊢
      rcases List.mem_cons.1 hl with rfl | hmem
      · rcases searchFold_strict hf ls (l, f l) (hf l) with hE | hE
        · rw [hE] at hlt; exact absurd hlt (lt_irrefl _)
        · exact Or.inl hE
      · exact ih (l0, f l0) (hf l0) hpw.2 (Or.inr (fun m hm => hpw.1 m hm)) l hmem hlt
    · have hup2 : Score.gt (f l0) init.2 = false := by simpa using hup
      have hstep : searchStep f init l0 = init := by simp [searchStep, hup2]
      rw [hstep] at hlt ⊢
      rcases List.mem_cons.1 hl with rfl | hmem
      · have hle : (f l).toE ≤ init.2.toE := (Score.gt_false_iff (hf l) hinit).1 hup2
        rcases hside with hbot | hgt
        · have hfl0 : f l = Score.negInf := by
            rw [hbot] at hle
            exact Score.toE_eq_bot_iff.1 (le_bot_iff.1 (by simpa [Score.toE] using hle))
          by_cases hres : (List.foldl (searchStep f) init ls).2 = Score.negInf
          · exact Or.inr ⟨hfl0, hres⟩
          · refine Or.inl ?_
            rw [hfl0]
            simpa [Score.toE] using Score.bot_lt_toE hres
        · have hini : init.1 < l := hgt l (List.mem_cons_self ..)
          rcases searchFold_strict hf ls init hinit with hE | hE
          · rw [hE] at hlt; exact absurd hlt (asymm hini)
          · exact Or.inl (lt_of_le_of_lt hle hE)
      · refine ih init hinit hpw.2 ?_ l hmem hlt
        rcases hside with hbot | hgt
        · exact Or.inl hbot
        · exact Or.inr (fun m hm => hgt m (List.mem_cons_of_mem _ hm))

theorem searchFold_const (f : ℤ → Score) (init : ℤ × Score) (lags : List ℤ) :
    (∀ l ∈ lags, Score.gt (f l) init.2 = false) →
      List.foldl (searchStep f) init lags = init := by
  induction lags with
  | nil => intro _; rfl
  | cons l ls ih =>
    intro h
    rw [List.foldl_cons]
    have hstep : searchStep f init l = init := by
      simp [searchStep, h l (List.mem_cons_self ..)]
    rw [hstep]
    exact ih (fun m hm => h m (List.mem_cons_of_mem _ hm))

/-! Embedding of the recording gate (`RecorderProcessor` in
`src/recorder-processor.js` lines 1-76): sample-accurate start/end gating
inside fixed-size audio blocks. -/

/-- Mutable state of `RecorderProcessor`: armed start time, optional end
time (both in seconds), and the recording flag. -/
structure GateState where
  startAt : Option ℚ
  endAt : Option ℚ
  recording : Bool
deriving DecidableEq

/-- Idle gate: no pending window, not recording. -/
def GateState.idle : GateState := ⟨none, none, false⟩

/-- Commands understood by the processor's message port. -/
inductive GateCmd where
  | startAt (time : ℚ)
  | setWindow (startT endT : ℚ)
  | stop
deriving DecidableEq

/-- The `port.onmessage` handler of `RecorderProcessor`. -/
def GateState.onMessage : GateState → GateCmd → GateState
  | _, .startAt t => ⟨some t, none, false⟩
  | _, .setWindow s e => ⟨some s, some e, false⟩
  | _, .stop => ⟨none, none, false⟩

/-- One invocation of `RecorderProcessor.process` on a block of `micIn`
samples whose first frame plays at clock time `t0` (one input channel is
modelled; `copyChannels` treats every channel identically).  Returns the
updated state and the chunk of samples posted on the port, if any. -/
def recorderProcess (sampleRate : ℚ) (st : GateState) (t0 : ℚ)
    (micIn : List ℚ) : GateState × Option (List ℚ) :=
  let blockSize := micIn.length
  let t1 := t0 + (blockSize : ℚ) / sampleRate
  let phase1 : Option (GateState × ℕ) :=
    if st.recording then some (st, 0)
    else
      match st.startAt with
      | none => none
      | some s =>
        if t1 ≤ s then none
        else some ({ st with recording := true },
            (max 0 ⌊(s - t0) * sampleRate⌋).toNat)
  match phase1 with
  | none => (st, none)
  | some (st1, startFrame) =>
    let phase2 : Option (ℕ × Bool) :=
      match st1.endAt with
      | none => some (blockSize, false)
      | some e =>
        if e ≤ t0 then none
        else if e < t1 then some ((max 0 ⌊(e - t0) * sampleRate⌋).toNat, true)
        else some (blockSize, false)
    match phase2 with
    | none => ({ st1 with recording := false }, none)
    | some (endFrame, willStop) =>
      let chunk :=
        if 0 < endFrame - startFrame then
          some ((micIn.drop startFrame).take (endFrame - startFrame))
        else none
      if willStop then (GateState.idle, chunk) else (st1, chunk)

/-! Embedding of the per-trial aggregation of `calibrateLatencyRobust`
(`part_000` lines 87-119). -/

/-- Projection of one calibration trial result onto the fields the
aggregation reads. -/
structure TrialResult where
  lagSamples : ℚ
  lagMs : ℚ
  score : ℚ
deriving DecidableEq

/-- Fallback result `{lagSamples: 0, lagMs: 0, score: 0}`. -/
def defaultOutcome : TrialResult := ⟨0, 0, 0⟩

/-- Sort order `(a, b) => a.lagSamples - b.lagSamples` of the JS sort. -/
def byLag (a b : TrialResult) : Prop := a.lagSamples ≤ b.lagSamples

instance : DecidableRel byLag := fun a b =>
  inferInstanceAs (Decidable (a.lagSamples ≤ b.lagSamples))

instance : IsTotal TrialResult byLag := ⟨fun a b => le_total a.lagSamples b.lagSamples⟩

instance : IsTrans TrialResult byLag := ⟨fun _ _ _ h1 h2 => le_trans h1 h2⟩

/-- JS `pickMedianByLag`: stable-sort the trials by lag and take the element
at index `Math.floor(length / 2)`.  JS `Array.prototype.sort` is stable;
insertion sort models it. -/
def pickMedianByLag (arr : List TrialResult) : TrialResult :=
  let sorted := List.insertionSort byLag arr
  sorted.getD (sorted.length / 2) defaultOutcome

/-- JS fallback reduce: keep the first trial with the strictly highest
score. -/
def bestByScore (results : List TrialResult) : Option TrialResult :=
  results.foldl (fun best cur =>
    match best with
    | none => some cur
    | some b => if b.score < cur.score then some cur else some b) none

/-- Filtering and reduction of `calibrateLatencyRobust` over the per-trial
results: keep trials with `score >= minScore`; if any survive return their
median-by-lag, else fall back to the best-scoring trial overall, else to a
zero default. -/
def robustAggregate (results : List TrialResult) (minScore : ℚ) : TrialResult :=
  let valid := results.filter (fun r => minScore ≤ r.score)
  if 3 ≤ valid.length then pickMedianByLag valid
  else if 0 < valid.length then pickMedianByLag valid
  else (bestByScore results).getD defaultOutcome

/-! Heap model for the frame property of `estimateLagNormalized`:
`Float32Array`s live in a store, `toF32` allocates a fresh copy, and
`zeroMean` mutates its argument buffer in place. -/

/-- Store of allocated sample buffers; a reference is an index into it. -/
abbrev Store := List (List ℚ)

/-- JS `toF32` at store level: allocate a fresh copy of the buffer at `r`
(`a.slice()` / `Float32Array.from(a)` both copy), returning the new store
and the fresh reference. -/
def toF32S (σ : Store) (r : ℕ) : Store × ℕ := (σ ++ [σ.getD r []], σ.length)

/-- JS `zeroMean` at store level: overwrite the buffer at `r` in place. -/
def zeroMeanS (σ : Store) (r : ℕ) : Store := σ.set r (zeroMean (σ.getD r []))

/-- Store-level `estimateLagNormalized` (calibration version): inputs are
passed by reference, copied by `toF32`, the copies are DC-removed in place,
and the result is computed from the copies. -/
def estimateLagNormalizedCalS (σ : Store) (micR refR : ℕ)
    (sampleRate maxLagMs : ℚ) (allowNegative : Bool) : Store × LagEstimate :=
  let p1 := toF32S σ micR
  let p2 := toF32S p1.1 refR
  let σ3 := zeroMeanS p2.1 p1.2
  let σ4 := zeroMeanS σ3 p2.2
  let x := σ4.getD p1.2 []
  let y := σ4.getD p2.2 []
  (σ4, if x.length < 8 ∨ y.length < 8 then ⟨0, 0, Score.val 0 1⟩
       else lagSearch 16 x y sampleRate maxLagMs allowNegative)

/-! Gate behaviour lemmas for claim C1. -/

theorem recorderProcess_idle (sr v0 : ℚ) (blk : List ℚ) :
    recorderProcess sr GateState.idle v0 blk = (GateState.idle, none) := rfl

theorem recorderProcess_start (sr s t0 : ℚ) (mic : List ℚ) (hsr : 0 < sr)
    (hs0 : t0 ≤ s) (hs1 : s < t0 + (mic.length : ℚ) / sr) :
    recorderProcess sr ⟨some s, none, false⟩ t0 mic =
      (⟨some s, none, true⟩, some (mic.drop (⌊(s - t0) * sr⌋).toNat)) := by
  have hm0 : (0:ℤ) ≤ ⌊(s - t0) * sr⌋ :=
    Int.floor_nonneg.2 (mul_nonneg (by linarith) hsr.le)
  have hmax : max 0 ⌊(s - t0) * sr⌋ = ⌊(s - t0) * sr⌋ := max_eq_right hm0
  have hmB : ⌊(s - t0) * sr⌋ < (mic.length : ℤ) := by
    rw [Int.floor_lt]
    push_cast
    exact (lt_div_iff hsr).1 (sub_lt_iff_lt_add'.2 hs1)
  have hns : ¬ (t0 + (mic.length : ℚ) / sr ≤ s) := not_le.2 hs1
  have hpos : 0 < mic.length - (⌊(s - t0) * sr⌋).toNat := by omega
  have htake : (mic.drop (⌊(s - t0) * sr⌋).toNat).take
      (mic.length - (⌊(s - t0) * sr⌋).toNat) = mic.drop (⌊(s - t0) * sr⌋).toNat :=
    List.take_of_length_le (by simp)
  unfold recorderProcess
  simp [hmax, hns, hpos, htake]

theorem recorderProcess_end (sr e u0 : ℚ) (mic2 : List ℚ) (st : GateState)
    (hsr : 0 < sr) (hrec : st.recording = true) (hend : st.endAt = some e)
    (he0 : u0 < e) (he1 : e < u0 + (mic2.length : ℚ) / sr)
    (hn1 : 1 ≤ ⌊(e - u0) * sr⌋) :
    recorderProcess sr st u0 mic2 =
      (GateState.idle, some (mic2.take (⌊(e - u0) * sr⌋).toNat)) := by
  obtain ⟨sa, ea, rec⟩ := st
  simp only at hrec hend
  subst hrec hend
  have hne0 : ¬ (e ≤ u0) := not_le.2 he0
  have hn0 : (0:ℤ) ≤ ⌊(e - u0) * sr⌋ :=
    Int.floor_nonneg.2 (mul_nonneg (by linarith) hsr.le)
  have hmax : max 0 ⌊(e - u0) * sr⌋ = ⌊(e - u0) * sr⌋ := max_eq_right hn0
  have hpos : 0 < (⌊(e - u0) * sr⌋).toNat := by omega
  unfold recorderProcess
  simp [hne0, he1, hmax, hpos, GateState.idle]

/-- Claim C1 (confirmed).  For the recording gate `RecorderProcessor.process`
with block size `B = mic.length`: when the registered start time `s` lands
`m = ⌊(s − t0)·sampleRate⌋` samples into the block starting at `t0` and no
end time is set, the emitted chunk is the tail of that same block from
sample `m` on, hence has exactly `B − m` samples; when a finite end time `e`
lands `n = ⌊(e − u0)·sampleRate⌋ ≥ 1` samples into a later block while
recording, the emitted chunk has exactly `n` samples, the gate becomes
idle, and — absent a new arm command — an idle gate emits no further chunks
on any subsequent block. -/
theorem C1_gate_truncation (sr s t0 e u0 : ℚ) (mic mic2 : List ℚ)
    (st : GateState) (hsr : 0 < sr)
    (hs0 : t0 ≤ s) (hs1 : s < t0 + (mic.length : ℚ) / sr)
    (hrec : st.recording = true) (hend : st.endAt = some e)
    (he0 : u0 < e) (he1 : e < u0 + (mic2.length : ℚ) / sr)
    (hn1 : 1 ≤ ⌊(e - u0) * sr⌋) :
    (recorderProcess sr ⟨some s, none, false⟩ t0 mic).2 =
        some (mic.drop (⌊(s - t0) * sr⌋).toNat) ∧
    (mic.drop (⌊(s - t0) * sr⌋).toNat).length
        = mic.length - (⌊(s - t0) * sr⌋).toNat ∧
    (recorderProcess sr st u0 mic2).2 =
        some (mic2.take (⌊(e - u0) * sr⌋).toNat) ∧
    (mic2.take (⌊(e - u0) * sr⌋).toNat).length = (⌊(e - u0) * sr⌋).toNat ∧
    (recorderProcess sr st u0 mic2).1 = GateState.idle ∧
    (∀ v0 blk, recorderProcess sr GateState.idle v0 blk = (GateState.idle, none)) := by
  have hstart := recorderProcess_start sr s t0 mic hsr hs0 hs1
  have hstop := recorderProcess_end sr e u0 mic2 st hsr hrec hend he0 he1 hn1
  have hnB : ⌊(e - u0) * sr⌋ < (mic2.length : ℤ) := by
    rw [Int.floor_lt]
    push_cast
    exact (lt_div_iff hsr).1 (sub_lt_iff_lt_add'.2 he1)
  refine ⟨by rw [hstart], by simp, by rw [hstop], ?_, by rw [hstop],
    fun v0 blk => recorderProcess_idle sr v0 blk⟩
  rw [List.length_take]
  omega

/-- Witness for C1 at sampleRate 10: a start at `0.25 s` lands 2 samples
into the block `[0, 0.4)`, so the first chunk is the last 2 of 4 samples;
an end at `1.25 s` lands 2 samples into the block `[1, 1.4)`, so the final
chunk is the first 2 samples and the gate goes idle. -/
theorem C1_gate_truncation_witness :
    (0:ℚ) < 10 ∧ (0:ℚ) ≤ 1/4 ∧ (1:ℚ)/4 < 0 + (([1,2,3,4]:List ℚ).length : ℚ) / 10 ∧
    ((1:ℚ) < 5/4 ∧ (5:ℚ)/4 < 1 + (([5,6,7,8]:List ℚ).length : ℚ) / 10 ∧
      1 ≤ ⌊((5:ℚ)/4 - 1) * 10⌋) ∧
    ((recorderProcess 10 ⟨some (1/4), none, false⟩ 0 [1,2,3,4]).2 =
        some (([1,2,3,4]:List ℚ).drop (⌊((1:ℚ)/4 - 0) * 10⌋).toNat) ∧
      (([1,2,3,4]:List ℚ).drop (⌊((1:ℚ)/4 - 0) * 10⌋).toNat).length
          = ([1,2,3,4]:List ℚ).length - (⌊((1:ℚ)/4 - 0) * 10⌋).toNat ∧
      (recorderProcess 10 ⟨some 0, some (5/4), true⟩ 1 [5,6,7,8]).2 =
          some (([5,6,7,8]:List ℚ).take (⌊((5:ℚ)/4 - 1) * 10⌋).toNat) ∧
      (([5,6,7,8]:List ℚ).take (⌊((5:ℚ)/4 - 1) * 10⌋).toNat).length
          = (⌊((5:ℚ)/4 - 1) * 10⌋).toNat ∧
      (recorderProcess 10 ⟨some 0, some (5/4), true⟩ 1 [5,6,7,8]).1 = GateState.idle ∧
      (∀ v0 blk, recorderProcess 10 GateState.idle v0 blk = (GateState.idle, none))) :=
  ⟨by norm_num, by norm_num, by norm_num, ⟨by norm_num, by norm_num, by norm_num⟩,
    C1_gate_truncation 10 (1/4) 0 (5/4) 1 [1,2,3,4] [5,6,7,8]
      ⟨some 0, some (5/4), true⟩ (by norm_num) (by norm_num) (by norm_num)
      rfl rfl (by norm_num) (by norm_num) (by norm_num)⟩

/-! Aggregation lemmas for claim C2. -/

theorem robustAggregate_valid_nonempty (results : List TrialResult) (minScore : ℚ)
    (hne : results.filter (fun r => minScore ≤ r.score) ≠ []) :
    robustAggregate results minScore =
      pickMedianByLag (results.filter (fun r => minScore ≤ r.score)) := by
  unfold robustAggregate
  have hlen : 0 < (results.filter (fun r => minScore ≤ r.score)).length :=
    List.length_pos.2 hne
  by_cases h3 : 3 ≤ (results.filter (fun r => minScore ≤ r.score)).length
  · simp only [h3, if_true]
  · simp only [h3, if_false, hlen, if_true]

theorem pickMedianByLag_spec (arr : List TrialResult) (hne : arr ≠ []) :
    ∃ sorted : List TrialResult, sorted.Perm arr ∧ List.Sorted byLag sorted ∧
      pickMedianByLag arr = sorted.getD (sorted.length / 2) defaultOutcome ∧
      pickMedianByLag arr ∈ arr := by
  refine ⟨List.insertionSort byLag arr, List.perm_insertionSort byLag arr,
    List.sorted_insertionSort byLag arr, rfl, ?_⟩
  have hlen : (List.insertionSort byLag arr).length = arr.length :=
    (List.perm_insertionSort byLag arr).length_eq
  have hpos : 0 < arr.length := List.length_pos.2 hne
  have hidx : (List.insertionSort byLag arr).length / 2 <
      (List.insertionSort byLag arr).length := by omega
  unfold pickMedianByLag
  rw [List.getD_eq_getElem _ _ hidx]
  exact (List.perm_insertionSort byLag arr).mem_iff.1 (List.getElem_mem _)

/-- The six trial results of the C2 example: scores 0.9, 0.05, 0.3, 0.95,
0.1, 0.4 paired with lags 10, 99, 20, 30, 98, 40. -/
def c2Trials : List TrialResult :=
  [⟨10, 0, 9/10⟩, ⟨99, 0, 1/20⟩, ⟨20, 0, 3/10⟩, ⟨30, 0, 19/20⟩,
   ⟨98, 0, 1/10⟩, ⟨40, 0, 2/5⟩]

/-- Claim C2 (corrected).  When at least one trial passes the acceptance
score, `calibrateLatencyRobust` returns the element at index
`Math.floor(length/2)` of the valid trials sorted by lag — the UPPER middle
element for an even count, not the lower middle — and that element is
itself a valid trial.  On the example scores [0.9, 0.05, 0.3, 0.95, 0.1,
0.4] with threshold 0.2, exactly the trials scoring 0.9, 0.3, 0.95, 0.4 are
valid, and of those four (lags 10, 20, 30, 40) the returned trial is the
one with lag 30 (score 0.95), the upper middle by lag. -/
theorem C2_median_by_lag (results : List TrialResult) (minScore : ℚ)
    (hne : results.filter (fun r => minScore ≤ r.score) ≠ []) :
    (∃ sorted : List TrialResult,
        sorted.Perm (results.filter (fun r => minScore ≤ r.score)) ∧
        List.Sorted byLag sorted ∧
        robustAggregate results minScore =
          sorted.getD (sorted.length / 2) defaultOutcome ∧
        robustAggregate results minScore ∈
          results.filter (fun r => minScore ≤ r.score)) ∧
    c2Trials.filter (fun r => (1/5 : ℚ) ≤ r.score) =
        [⟨10, 0, 9/10⟩, ⟨20, 0, 3/10⟩, ⟨30, 0, 19/20⟩, ⟨40, 0, 2/5⟩] ∧
    robustAggregate c2Trials (1/5) = ⟨30, 0, 19/20⟩ := by
  refine ⟨?_, ?_, ?_⟩
  · rw [robustAggregate_valid_nonempty results minScore hne]
    exact pickMedianByLag_spec _ hne
  · norm_num [c2Trials, List.filter]
  · norm_num [robustAggregate, c2Trials, List.filter, pickMedianByLag,
      List.insertionSort, List.orderedInsert, byLag, defaultOutcome]

/-- Counterexample to C2 as stated: on the example scores with lags
10, 99, 20, 30, 98, 40 and threshold 0.2, the four valid trials sorted by
lag are those with lags [10, 20, 30, 40]; the claimed lower-middle element
(index 1, lag 20) is not what the code returns — `pickMedianByLag` indexes
`Math.floor(4/2) = 2` and `calibrateLatencyRobust` returns the trial with
lag 30. -/
theorem C2_median_by_lag_cex :
    robustAggregate c2Trials (1/5) = ⟨30, 0, 19/20⟩ ∧
    (List.insertionSort byLag (c2Trials.filter (fun r => (1/5 : ℚ) ≤ r.score))).getD 1
        defaultOutcome = ⟨20, 0, 3/10⟩ ∧
    ((⟨30, 0, 19/20⟩ : TrialResult) ≠ ⟨20, 0, 3/10⟩) := by
  refine ⟨?_, ?_, ?_⟩
  · norm_num [robustAggregate, c2Trials, List.filter, pickMedianByLag,
      List.insertionSort, List.orderedInsert, byLag, defaultOutcome]
  · norm_num [c2Trials, List.filter, List.insertionSort, List.orderedInsert,
      byLag, defaultOutcome]
  · intro h
    have := congrArg TrialResult.lagSamples h
    norm_num at this

/-- Witness for C2: the theorem applied to the example trial list with
threshold 0.2, whose valid sublist is nonempty. -/
theorem C2_median_by_lag_witness :
    (c2Trials.filter (fun r => (1/5 : ℚ) ≤ r.score) ≠ []) ∧
    ((∃ sorted : List TrialResult,
        sorted.Perm (c2Trials.filter (fun r => (1/5 : ℚ) ≤ r.score)) ∧
        List.Sorted byLag sorted ∧
        robustAggregate c2Trials (1/5) =
          sorted.getD (sorted.length / 2) defaultOutcome ∧
        robustAggregate c2Trials (1/5) ∈
          c2Trials.filter (fun r => (1/5 : ℚ) ≤ r.score)) ∧
      c2Trials.filter (fun r => (1/5 : ℚ) ≤ r.score) =
        [⟨10, 0, 9/10⟩, ⟨20, 0, 3/10⟩, ⟨30, 0, 19/20⟩, ⟨40, 0, 2/5⟩] ∧
      robustAggregate c2Trials (1/5) = ⟨30, 0, 19/20⟩) :=
  ⟨by norm_num [c2Trials, List.filter]; exact List.cons_ne_nil _ _,
    C2_median_by_lag c2Trials (1/5)
      (by norm_num [c2Trials, List.filter]; exact List.cons_ne_nil _ _)⟩

/-! Unfolding lemmas for the estimator. -/

theorem lagSearch_lagSamples (minOverlap : ℤ) (x y : List ℚ) (sr mlms : ℚ)
    (an : Bool) :
    (lagSearch minOverlap x y sr mlms an).lagSamples =
      ((lagList (maxLagOf x y sr mlms) an).foldl
        (searchStep (evalLagScore minOverlap x y)) (0, Score.negInf)).1 := rfl

theorem lagSearch_score (minOverlap : ℤ) (x y : List ℚ) (sr mlms : ℚ)
    (an : Bool) :
    (lagSearch minOverlap x y sr mlms an).score =
      ((lagList (maxLagOf x y sr mlms) an).foldl
        (searchStep (evalLagScore minOverlap x y)) (0, Score.negInf)).2 := rfl

theorem estimateLagNormalizedCal_short {mic ref : List ℚ} {sr mlms : ℚ}
    {an : Bool}
    (h : (zeroMean (toF32 mic)).length < 8 ∨ (zeroMean (toF32 ref)).length < 8) :
    estimateLagNormalizedCal mic ref sr mlms an = ⟨0, 0, Score.val 0 1⟩ := by
  unfold estimateLagNormalizedCal
  rw [if_pos h]

theorem estimateLagNormalizedCal_long {mic ref : List ℚ} {sr mlms : ℚ}
    {an : Bool}
    (h1 : 8 ≤ (zeroMean (toF32 mic)).length)
    (h2 : 8 ≤ (zeroMean (toF32 ref)).length) :
    estimateLagNormalizedCal mic ref sr mlms an =
      lagSearch 16 (zeroMean (toF32 mic)) (zeroMean (toF32 ref)) sr mlms an := by
  unfold estimateLagNormalizedCal
  rw [if_neg]
  push_neg
  omega

theorem estimateLagNormalizedRU_short {mic ref : List ℚ} {sr mlms : ℚ}
    {an : Bool}
    (h : (zeroMean (toF32 mic)).length < 8 ∨ (zeroMean (toF32 ref)).length < 8) :
    estimateLagNormalizedRU mic ref sr mlms an = ⟨0, 0, Score.val 0 1⟩ := by
  unfold estimateLagNormalizedRU
  rw [if_pos h]

theorem estimateLagNormalizedRU_long {mic ref : List ℚ} {sr mlms : ℚ}
    {an : Bool}
    (h1 : 8 ≤ (zeroMean (toF32 mic)).length)
    (h2 : 8 ≤ (zeroMean (toF32 ref)).length) :
    estimateLagNormalizedRU mic ref sr mlms an =
      lagSearch 8 (zeroMean (toF32 mic)) (zeroMean (toF32 ref)) sr mlms an := by
  unfold estimateLagNormalizedRU
  rw [if_neg]
  push_neg
  omega

/-- Counterexample to C3 as stated: with an 8-sample mic input and a
100-sample reference at 48 kHz and maxLagMs 120, the code computes
`maxLag = min(5760, ⌊max(8,100)/2⌋) = 50`, while the claimed formula
`min(5760, ⌊min(8,100)/2⌋)` gives 4. -/
theorem C3_maxlag_cex :
    maxLagOf (List.replicate 8 (0:ℚ)) (List.replicate 100 (0:ℚ)) 48000 120 = 50 ∧
    min ⌊(120:ℚ) / 1000 * 48000⌋
        (((min (List.replicate 8 (0:ℚ)).length
          (List.replicate 100 (0:ℚ)).length : ℕ) / 2 : ℕ) : ℤ) = 4 ∧
    (50:ℤ) ≠ 4 := by
  refine ⟨?_, ?_, by norm_num⟩
  · simp [maxLagOf]
    norm_num
  · simp
    norm_num

/-- Claim C3 (corrected).  The lag search bound is
`maxLag = min(⌊(maxLagMs/1000)·sampleRate⌋, ⌊max(x.length, y.length)/2⌋)` —
the length cap uses half the LONGER input, not half the shorter — and
consequently the returned `lagSamples` always satisfies
`|lagSamples| ≤ max maxLag 0`. -/
theorem C3_maxlag_bound (mic ref : List ℚ) (sampleRate maxLagMs : ℚ)
    (allowNegative : Bool) :
    (maxLagOf (zeroMean (toF32 mic)) (zeroMean (toF32 ref)) sampleRate maxLagMs =
      min ⌊maxLagMs / 1000 * sampleRate⌋
        (((max (zeroMean (toF32 mic)).length (zeroMean (toF32 ref)).length : ℕ)
          / 2 : ℕ) : ℤ)) ∧
    |(estimateLagNormalizedCal mic ref sampleRate maxLagMs
        allowNegative).lagSamples| ≤
      max (maxLagOf (zeroMean (toF32 mic)) (zeroMean (toF32 ref))
        sampleRate maxLagMs) 0 := by
  refine ⟨rfl, ?_⟩
  by_cases hshort : (zeroMean (toF32 mic)).length < 8 ∨ (zeroMean (toF32 ref)).length < 8
  · rw [estimateLagNormalizedCal_short hshort]
    simp
  · push_neg at hshort
    rw [estimateLagNormalizedCal_long hshort.1 hshort.2, lagSearch_lagSamples]
    rcases searchFold_shape (evalLagScore 16 (zeroMean (toF32 mic)) (zeroMean (toF32 ref)))
        (lagList (maxLagOf (zeroMean (toF32 mic)) (zeroMean (toF32 ref)) sampleRate maxLagMs)
          allowNegative) (0, Score.negInf) with h | ⟨m, hm, h⟩
    · rw [h]
      simp
    · rw [h]
      unfold lagList at hm
      rcases Bool.dichotomy allowNegative with ha | ha <;> rw [ha] at hm <;>
        simp only [if_true, if_false, Bool.false_eq_true] at hm
      · have hb := mem_intRange.1 hm
        rw [abs_le]
        omega
      · have hb := mem_intRange.1 hm
        rw [abs_le]
        omega

/-! Degenerate-signal behaviour (claims C5 and C6). -/

theorem zeroMean_replicate (n : ℕ) (a : ℚ) (hn : 0 < n) :
    zeroMean (List.replicate n a) = List.replicate n 0 := by
  unfold zeroMean
  rw [List.sum_replicate, List.length_replicate, nsmul_eq_mul,
    mul_div_cancel_left₀ a (by positivity : (n:ℚ) ≠ 0), List.map_replicate]
  simp

theorem evalLagScore_zero_energy (minOverlap : ℤ) (n m : ℕ) (lag : ℤ) :
    evalLagScore minOverlap (List.replicate n 0) (List.replicate m 0) lag
      = Score.negInf := by
  unfold evalLagScore
  split
  · rfl
  · rw [if_pos]
    left
    unfold xxAt
    simp [getQ_replicate]
    norm_num [epsEnergy]

theorem lagSearch_all_negInf {minOverlap : ℤ} {x y : List ℚ} {sr mlms : ℚ}
    {an : Bool}
    (h : ∀ lag, evalLagScore minOverlap x y lag = Score.negInf) :
    lagSearch minOverlap x y sr mlms an = ⟨0, 0, Score.negInf⟩ := by
  have hfold : (lagList (maxLagOf x y sr mlms) an).foldl
      (searchStep (evalLagScore minOverlap x y)) (0, Score.negInf)
        = ((0 : ℤ), Score.negInf) :=
    searchFold_const _ _ _ (fun l _ => by rw [h l]; rfl)
  unfold lagSearch
  simp only [hfold]
  simp

/-- Claim C5 (corrected).  For constant (degenerate) inputs that pass the
short-input early-out (both lengths ≥ 8), `estimateLagNormalized` does
return without raising, with `lagSamples = 0` and `lagMs = 0` — but the
`score` field is the float `-Infinity` (`Score.negInf`, denoting `⊥`), not
a value in [-1, 1]: after DC removal a constant signal is all zeros, every
candidate lag fails the `1e-12` energy check, and `bestScore` keeps its
`-Infinity` initial value. -/
theorem C5_degenerate (n m : ℕ) (a b sr mlms : ℚ) (an : Bool)
    (hn : 8 ≤ n) (hm : 8 ≤ m) :
    estimateLagNormalizedCal (List.replicate n a) (List.replicate m b)
        sr mlms an = ⟨0, 0, Score.negInf⟩ ∧
    Score.toE (estimateLagNormalizedCal (List.replicate n a)
        (List.replicate m b) sr mlms an).score = ⊥ := by
  have hx : zeroMean (toF32 (List.replicate n a)) = List.replicate n 0 :=
    zeroMean_replicate n a (by omega)
  have hy : zeroMean (toF32 (List.replicate m b)) = List.replicate m 0 :=
    zeroMean_replicate m b (by omega)
  have hres : estimateLagNormalizedCal (List.replicate n a)
      (List.replicate m b) sr mlms an = ⟨0, 0, Score.negInf⟩ := by
    rw [estimateLagNormalizedCal_long
        (by rw [hx]; simpa using hn) (by rw [hy]; simpa using hm), hx, hy]
    exact lagSearch_all_negInf (fun lag => evalLagScore_zero_energy 16 n m lag)
  exact ⟨hres, by rw [hres]; rfl⟩

/-- Counterexample to C5 as stated: both inputs constant of length 8, so
the early-out does not fire, and the returned score is `-Infinity`
(`Score.negInf`, denoting `⊥`), which is strictly below -1 — not a float in
[-1, 1]. -/
theorem C5_degenerate_cex :
    (estimateLagNormalizedCal (List.replicate 8 (1:ℚ)) (List.replicate 8 (1:ℚ))
        1000 4 false).score = Score.negInf ∧
    Score.toE Score.negInf < ((-1 : ℝ) : EReal) := by
  constructor
  · have hx : zeroMean (toF32 (List.replicate 8 (1:ℚ))) = List.replicate 8 0 :=
      zeroMean_replicate 8 1 (by omega)
    rw [estimateLagNormalizedCal_long (by rw [hx]; simp) (by rw [hx]; simp), hx,
      lagSearch_all_negInf (fun lag => evalLagScore_zero_energy 16 8 8 lag)]
  · show (⊥ : EReal) < ((-1 : ℝ) : EReal)
    exact EReal.bot_lt_coe _

/-- Witness for C5: constant inputs of length 8 at 48 kHz. -/
theorem C5_degenerate_witness :
    8 ≤ 8 ∧
    (estimateLagNormalizedCal (List.replicate 8 (2:ℚ)) (List.replicate 8 (3:ℚ))
        48000 120 false = ⟨0, 0, Score.negInf⟩ ∧
      Score.toE (estimateLagNormalizedCal (List.replicate 8 (2:ℚ))
        (List.replicate 8 (3:ℚ)) 48000 120 false).score = ⊥) :=
  ⟨by omega, C5_degenerate 8 8 2 3 48000 120 false (by omega) (by omega)⟩

/-- Claim C6 (corrected).  The zero-confidence early-out
`{lagSamples: 0, lagMs: 0, score: 0}` fires precisely when AT LEAST ONE
input is shorter than 8 samples (`x.length < 8 || y.length < 8`), not when
both are; when both inputs have at least 8 samples the function proceeds to
the correlation scan. -/
theorem C6_early_out (mic ref : List ℚ) (sr mlms : ℚ) (an : Bool) :
    (mic.length < 8 ∨ ref.length < 8 →
      estimateLagNormalizedCal mic ref sr mlms an = ⟨0, 0, Score.val 0 1⟩) ∧
    (8 ≤ mic.length → 8 ≤ ref.length →
      estimateLagNormalizedCal mic ref sr mlms an =
        lagSearch 16 (zeroMean (toF32 mic)) (zeroMean (toF32 ref)) sr mlms an) := by
  constructor
  · intro h
    apply estimateLagNormalizedCal_short
    rcases h with h | h
    · left
      rw [zeroMean_length]
      exact h
    · right
      rw [zeroMean_length]
      exact h
  · intro h1 h2
    apply estimateLagNormalizedCal_long
    · rw [zeroMean_length]
      exact h1
    · rw [zeroMean_length]
      exact h2

/-- Counterexample to C6 as stated: mic 4 samples, ref 16 samples — "both
shorter than 8" is false, yet the function returns the early-out result
(score 0, i.e. `Score.val 0 1`), not the result of the correlation scan
(which for these inputs carries score `-Infinity`). -/
theorem C6_early_out_cex :
    estimateLagNormalizedCal (List.replicate 4 (1:ℚ)) (List.replicate 16 (1:ℚ))
        1000 2 false = ⟨0, 0, Score.val 0 1⟩ ∧
    ¬((List.replicate 4 (1:ℚ)).length < 8 ∧
      (List.replicate 16 (1:ℚ)).length < 8) ∧
    lagSearch 16 (zeroMean (toF32 (List.replicate 4 (1:ℚ))))
        (zeroMean (toF32 (List.replicate 16 (1:ℚ)))) 1000 2 false
      = ⟨0, 0, Score.negInf⟩ ∧
    (⟨0, 0, Score.val 0 1⟩ : LagEstimate) ≠ ⟨0, 0, Score.negInf⟩ := by
  refine ⟨?_, by simp, ?_, by simp⟩
  · apply estimateLagNormalizedCal_short
    left
    rw [zeroMean_length]
    simp [toF32]
  · have hx : zeroMean (toF32 (List.replicate 4 (1:ℚ))) = List.replicate 4 0 :=
      zeroMean_replicate 4 1 (by omega)
    have hy : zeroMean (toF32 (List.replicate 16 (1:ℚ))) = List.replicate 16 0 :=
      zeroMean_replicate 16 1 (by omega)
    rw [hx, hy]
    exact lagSearch_all_negInf (fun lag => evalLagScore_zero_energy 16 4 16 lag)

/-- Witness for C6: a 3-sample mic input takes the early-out branch. -/
theorem C6_early_out_witness :
    (([1,2,3] : List ℚ).length < 8 ∨ ([4,5,6,7] : List ℚ).length < 8) ∧
    estimateLagNormalizedCal [1,2,3] [4,5,6,7] 48000 120 false
      = ⟨0, 0, Score.val 0 1⟩ :=
  ⟨by simp, (C6_early_out [1,2,3] [4,5,6,7] 48000 120 false).1 (by simp)⟩

/-! Score bounds for claim C7: every candidate score is at most 1
(Cauchy-Schwarz), and perfect self-correlation at lag 0 scores exactly 1. -/

theorem toE_val_le_one {d e : ℚ} (he : 0 < e) (hd : d ^ 2 ≤ e) :
    Score.toE (Score.val d e) ≤ ((1 : ℝ) : EReal) := by
  rw [Score.toE, EReal.coe_le_coe_iff]
  rcases le_or_lt (d : ℝ) 0 with hd0 | hd0
  · exact le_trans (div_nonpos_of_nonpos_of_nonneg hd0 (Real.sqrt_nonneg _))
      zero_le_one
  · rw [div_le_one (Real.sqrt_pos.2 (by exact_mod_cast he))]
    have hc : ((d : ℝ)) ^ 2 ≤ (e : ℝ) := by exact_mod_cast hd
    calc (d : ℝ) = Real.sqrt ((d : ℝ) ^ 2) := (Real.sqrt_sq hd0.le).symm
      _ ≤ Real.sqrt (e : ℝ) := Real.sqrt_le_sqrt hc

theorem dot_sq_le_energy (x y : List ℚ) (lag : ℤ) :
    (dotAt x y lag) ^ 2 ≤ xxAt x y lag * yyAt x y lag := by
  unfold dotAt xxAt yyAt
  have h := Finset.sum_mul_sq_le_sq_mul_sq
    (Finset.range (overlapLen x y lag).toNat)
    (fun k : ℕ => getQ y (max 0 (-lag) + k))
    (fun k : ℕ => getQ x (max 0 (-lag) + k + lag))
  calc (∑ k ∈ Finset.range (overlapLen x y lag).toNat,
        getQ y (max 0 (-lag) + k) * getQ x (max 0 (-lag) + k + lag)) ^ 2
      ≤ (∑ k ∈ Finset.range (overlapLen x y lag).toNat,
          getQ y (max 0 (-lag) + k) ^ 2) *
        ∑ k ∈ Finset.range (overlapLen x y lag).toNat,
          getQ x (max 0 (-lag) + k + lag) ^ 2 := h
    _ = (∑ k ∈ Finset.range (overlapLen x y lag).toNat,
          getQ x (max 0 (-lag) + k + lag) * getQ x (max 0 (-lag) + k + lag)) *
        ∑ k ∈ Finset.range (overlapLen x y lag).toNat,
          getQ y (max 0 (-lag) + k) * getQ y (max 0 (-lag) + k) := by
        rw [mul_comm]
        congr 1 <;> exact Finset.sum_congr rfl (fun k _ => by ring)

theorem evalLagScore_toE_le_one (minOverlap : ℤ) (x y : List ℚ) (lag : ℤ) :
    Score.toE (evalLagScore minOverlap x y lag) ≤ ((1 : ℝ) : EReal) := by
  unfold evalLagScore
  split
  · exact bot_le
  · split
    · exact bot_le
    · rename_i hok
      push_neg at hok
      have heps : (0:ℚ) < epsEnergy := by norm_num [epsEnergy]
      exact toE_val_le_one
        (mul_pos (lt_trans heps hok.1) (lt_trans heps hok.2))
        (dot_sq_le_energy x y lag)

theorem overlapLen_self_zero (z : List ℚ) : overlapLen z z 0 = (z.length : ℤ) := by
  unfold overlapLen
  simp

theorem dotAt_self_zero (z : List ℚ) :
    dotAt z z 0 = yyAt z z 0 ∧ xxAt z z 0 = yyAt z z 0 := by
  unfold dotAt xxAt yyAt
  norm_num

theorem evalLagScore_self_zero (minOverlap : ℤ) (z : List ℚ)
    (hlen : minOverlap ≤ (z.length : ℤ)) (hE : epsEnergy < yyAt z z 0) :
    evalLagScore minOverlap z z 0 =
      Score.val (yyAt z z 0) (yyAt z z 0 * yyAt z z 0) := by
  unfold evalLagScore
  rw [if_neg (by rw [overlapLen_self_zero]; omega), if_neg, (dotAt_self_zero z).1,
    (dotAt_self_zero z).2]
  push_neg
  rw [(dotAt_self_zero z).2]
  exact ⟨not_le.1 (not_le.2 hE), not_le.1 (not_le.2 hE)⟩

theorem toE_val_self {E : ℚ} (hE : 0 < E) :
    Score.toE (Score.val E (E * E)) = ((1 : ℝ) : EReal) := by
  rw [Score.toE]
  congr 1
  rw [show ((E * E : ℚ) : ℝ) = (E : ℝ) * (E : ℝ) by push_cast; ring,
    Real.sqrt_mul_self (by exact_mod_cast hE.le)]
  exact div_self (by exact_mod_cast hE.ne')

/-- Claim C7 (confirmed).  Feeding the same signal as both captured and
reference input (zero injected delay), with length at least 16 and
above-threshold energy after DC removal, the default (non-negative) scan
returns `lagSamples = 0` with score exactly 1: lag 0 attains the perfect
normalized self-correlation `E / sqrt(E·E) = 1`, no other lag can exceed 1
(Cauchy-Schwarz), and the strict-greater comparison never replaces the
first maximizer. -/
theorem C7_self_correlation (sig : List ℚ) (sr mlms : ℚ)
    (h16 : 16 ≤ sig.length)
    (hE : epsEnergy < yyAt (zeroMean (toF32 sig)) (zeroMean (toF32 sig)) 0)
    (hsr : 0 ≤ sr) (hmlms : 0 ≤ mlms) :
    (estimateLagNormalizedCal sig sig sr mlms false).lagSamples = 0 ∧
    Score.toE (estimateLagNormalizedCal sig sig sr mlms false).score
      = ((1 : ℝ) : EReal) := by
  have hzl : (zeroMean (toF32 sig)).length = sig.length := zeroMean_length _
  rw [estimateLagNormalizedCal_long (by omega) (by omega)]
  set z := zeroMean (toF32 sig) with hz
  have hml : 0 ≤ maxLagOf z z sr mlms := by
    unfold maxLagOf
    exact le_min
      (Int.floor_nonneg.2 (mul_nonneg (div_nonneg hmlms (by norm_num)) hsr))
      (Int.natCast_nonneg _)
  have hlags : lagList (maxLagOf z z sr mlms) false =
      0 :: intRange 1 (maxLagOf z z sr mlms) := by
    unfold lagList
    simpa using intRange_eq_cons hml
  set E := yyAt z z 0 with hEdef
  have hEpos : 0 < E := lt_trans (by norm_num [epsEnergy]) hE
  have hs0 : evalLagScore 16 z z 0 = Score.val E (E * E) :=
    evalLagScore_self_zero 16 z (by omega) hE
  rw [lagSearch_lagSamples, lagSearch_score, hlags, List.foldl_cons]
  have hstep : searchStep (evalLagScore 16 z z) (0, Score.negInf) 0 =
      ((0 : ℤ), Score.val E (E * E)) := by
    unfold searchStep
    rw [hs0]
    rfl
  have hconst : List.foldl (searchStep (evalLagScore 16 z z))
      ((0 : ℤ), Score.val E (E * E)) (intRange 1 (maxLagOf z z sr mlms)) =
      ((0 : ℤ), Score.val E (E * E)) := by
    apply searchFold_const
    intro l _
    rw [Score.gt_false_iff (evalLagScore_posEnergy 16 z z l)
      (show Score.PosEnergy (Score.val E (E * E)) from mul_pos hEpos hEpos),
      toE_val_self hEpos]
    exact evalLagScore_toE_le_one 16 z z l
  rw [hstep, hconst]
  exact ⟨rfl, toE_val_self hEpos⟩

/-- Witness for C7: a 16-sample alternating probe correlated with itself
(sampleRate 1000, maxLagMs 0). -/
theorem C7_self_correlation_witness :
    (16 ≤ ([1,-1,1,-1,1,-1,1,-1,1,-1,1,-1,1,-1,1,-1] : List ℚ).length) ∧
    ((estimateLagNormalizedCal [1,-1,1,-1,1,-1,1,-1,1,-1,1,-1,1,-1,1,-1]
        [1,-1,1,-1,1,-1,1,-1,1,-1,1,-1,1,-1,1,-1] 1000 0 false).lagSamples = 0 ∧
      Score.toE (estimateLagNormalizedCal [1,-1,1,-1,1,-1,1,-1,1,-1,1,-1,1,-1,1,-1]
        [1,-1,1,-1,1,-1,1,-1,1,-1,1,-1,1,-1,1,-1] 1000 0 false).score
        = ((1 : ℝ) : EReal)) :=
  ⟨by norm_num,
    C7_self_correlation [1,-1,1,-1,1,-1,1,-1,1,-1,1,-1,1,-1,1,-1] 1000 0
      (by norm_num)
      (by simp [toF32, zeroMean, yyAt, overlapLen, getQ, Finset.sum_range_succ]
          norm_num [epsEnergy])
      (by norm_num) (by norm_num)⟩

/-! Scaling lemmas for claim C8: multiplying the mic input by a positive
constant `c` scales `dot` by `c`, the mic-side energy by `c²`, and leaves
everything else unchanged. -/

theorem zeroMean_smul (c : ℚ) (a : List ℚ) :
    zeroMean (a.map (fun v => c * v)) = (zeroMean a).map (fun v => c * v) := by
  unfold zeroMean
  rw [List.map_map, List.map_map, List.length_map, List.sum_map_mul_left,
    List.map_id']
  apply List.map_congr_left
  intro v _
  simp only [Function.comp_apply]
  ring

theorem getQ_smul (c : ℚ) (a : List ℚ) (i : ℤ) :
    getQ (a.map (fun v => c * v)) i = c * getQ a i := by
  unfold getQ
  rcases lt_or_le i.toNat a.length with h | h
  · rw [List.getD_eq_getElem _ _ (by simpa using h),
      List.getD_eq_getElem _ _ h, List.getElem_map]
  · rw [List.getD_eq_default _ _ (by simpa using h), List.getD_eq_default _ _ h,
      mul_zero]

theorem overlapLen_smul (c : ℚ) (x y : List ℚ) (lag : ℤ) :
    overlapLen (x.map (fun v => c * v)) y lag = overlapLen x y lag := by
  unfold overlapLen
  rw [List.length_map]

theorem dotAt_smul (c : ℚ) (x y : List ℚ) (lag : ℤ) :
    dotAt (x.map (fun v => c * v)) y lag = c * dotAt x y lag := by
  unfold dotAt
  rw [overlapLen_smul, Finset.mul_sum]
  exact Finset.sum_congr rfl (fun k _ => by rw [getQ_smul]; ring)

theorem xxAt_smul (c : ℚ) (x y : List ℚ) (lag : ℤ) :
    xxAt (x.map (fun v => c * v)) y lag = c ^ 2 * xxAt x y lag := by
  unfold xxAt
  rw [overlapLen_smul, Finset.mul_sum]
  exact Finset.sum_congr rfl (fun k _ => by rw [getQ_smul]; ring)

theorem yyAt_smul (c : ℚ) (x y : List ℚ) (lag : ℤ) :
    yyAt (x.map (fun v => c * v)) y lag = yyAt x y lag := by
  unfold yyAt
  rw [overlapLen_smul]

/-- Effect on a score of scaling the mic input by `c`: `dot` scales by `c`,
the energy product by `c²`. -/
def Score.scale (c : ℚ) : Score → Score
  | .negInf => .negInf
  | .val d e => .val (c * d) (c ^ 2 * e)

theorem Score.gt_scale (c : ℚ) (hc : 0 < c) (s t : Score) :
    Score.gt (s.scale c) (t.scale c) = Score.gt s t := by
  cases s with
  | negInf => cases t <;> rfl
  | val d1 e1 =>
    cases t with
    | negInf => rfl
    | val d2 e2 =>
      unfold scale gt
      have h1 : (0 < c * d1) ↔ (0 < d1) := by
        constructor <;> intro h <;> nlinarith
      have h2 : (0 < c * d2) ↔ (0 < d2) := by
        constructor <;> intro h <;> nlinarith
      have h3 : ((c * d2) ^ 2 * (c ^ 2 * e1) < (c * d1) ^ 2 * (c ^ 2 * e2)) ↔
          (d2 ^ 2 * e1 < d1 ^ 2 * e2) := by
        rw [show (c * d2) ^ 2 * (c ^ 2 * e1) = c ^ 4 * (d2 ^ 2 * e1) by ring,
          show (c * d1) ^ 2 * (c ^ 2 * e2) = c ^ 4 * (d1 ^ 2 * e2) by ring]
        exact mul_lt_mul_left (by positivity)
      have h4 : ((c * d1) ^ 2 * (c ^ 2 * e2) < (c * d2) ^ 2 * (c ^ 2 * e1)) ↔
          (d1 ^ 2 * e2 < d2 ^ 2 * e1) := by
        rw [show (c * d1) ^ 2 * (c ^ 2 * e2) = c ^ 4 * (d1 ^ 2 * e2) by ring,
          show (c * d2) ^ 2 * (c ^ 2 * e1) = c ^ 4 * (d2 ^ 2 * e1) by ring]
        exact mul_lt_mul_left (by positivity)
      by_cases hd1 : 0 < d1 <;> by_cases hd2 : 0 < d2 <;>
        simp only [h1, h2, hd1, hd2, if_true, if_false] <;>
        first
          | rfl
          | exact decide_eq_decide.2 h3
          | exact decide_eq_decide.2 h4

theorem Score.toE_scale (c : ℚ) (hc : 0 < c) (s : Score) :
    (s.scale c).toE = s.toE := by
  cases s with
  | negInf => rfl
  | val d e =>
    unfold scale toE
    push_cast
    rw [show ((c : ℝ) ^ 2 * (e : ℝ)) = ((c : ℝ) * (c : ℝ)) * (e : ℝ) by ring,
      Real.sqrt_mul (by positivity) (e : ℝ),
      Real.sqrt_mul_self (by positivity : (0:ℝ) ≤ (c : ℝ))]
    rcases eq_or_ne (Real.sqrt (e : ℝ)) 0 with h0 | h0
    · rw [h0, mul_zero, div_zero, div_zero]
    · rw [mul_div_mul_left _ _ (by positivity : ((c : ℝ)) ≠ 0)]

theorem evalLagScore_smul (minOverlap : ℤ) (c : ℚ) (x y : List ℚ) (lag : ℤ)
    (hcls : c ^ 2 * xxAt x y lag ≤ epsEnergy ↔ xxAt x y lag ≤ epsEnergy) :
    evalLagScore minOverlap (x.map (fun v => c * v)) y lag =
      (evalLagScore minOverlap x y lag).scale c := by
  unfold evalLagScore
  rw [overlapLen_smul, xxAt_smul, yyAt_smul, dotAt_smul]
  by_cases hov : overlapLen x y lag < minOverlap
  · rw [if_pos hov, if_pos hov]
    rfl
  · rw [if_neg hov, if_neg hov]
    by_cases hen : xxAt x y lag ≤ epsEnergy ∨ yyAt x y lag ≤ epsEnergy
    · rw [if_pos, if_pos hen]
      · rfl
      · rcases hen with h | h
        · exact Or.inl (hcls.2 h)
        · exact Or.inr h
    · rw [if_neg, if_neg hen]
      · show Score.val (c * dotAt x y lag) (c ^ 2 * xxAt x y lag * yyAt x y lag) =
          Score.val (c * dotAt x y lag) (c ^ 2 * (xxAt x y lag * yyAt x y lag))
        rw [mul_assoc]
      · intro hcon
        apply hen
        rcases hcon with h | h
        · exact Or.inl (hcls.1 h)
        · exact Or.inr h

theorem searchFold_scale (c : ℚ) (hc : 0 < c) (f g : ℤ → Score)
    (lags : List ℤ) (b : ℤ × Score) :
    (∀ l ∈ lags, g l = (f l).scale c) →
      List.foldl (searchStep g) (b.1, b.2.scale c) lags =
        ((List.foldl (searchStep f) b lags).1,
          (List.foldl (searchStep f) b lags).2.scale c) := by
  induction lags generalizing b with
  | nil => intro _; rfl
  | cons l ls ih =>
    intro hfg
    rw [List.foldl_cons, List.foldl_cons]
    have hstep : searchStep g (b.1, b.2.scale c) l =
        ((searchStep f b l).1, (searchStep f b l).2.scale c) := by
      unfold searchStep
      rw [hfg l (List.mem_cons_self ..), Score.gt_scale c hc]
      by_cases h : Score.gt (f l) b.2 = true
      · rw [if_pos h, if_pos h]
      · rw [if_neg h, if_neg h]
    rw [hstep]
    exact ih (searchStep f b l) (fun m hm => hfg m (List.mem_cons_of_mem _ hm))

/-- Claim C8 (corrected).  Multiplying every mic sample by a positive
constant `c` leaves both the returned `lagSamples` and the denoted score of
`estimateLagNormalized` unchanged PROVIDED no candidate lag's mic-side
overlap energy is moved across the `1e-12` degeneracy threshold by the
scaling; without that proviso the claim fails (see the counterexample,
where a small `c` turns a perfect score 1 into `-Infinity`). -/
theorem C8_scale_invariance (mic ref : List ℚ) (sr mlms c : ℚ) (an : Bool)
    (hc : 0 < c)
    (hcls : ∀ lag ∈ lagList (maxLagOf (zeroMean (toF32 mic))
        (zeroMean (toF32 ref)) sr mlms) an,
      (c ^ 2 * xxAt (zeroMean (toF32 mic)) (zeroMean (toF32 ref)) lag ≤ epsEnergy ↔
        xxAt (zeroMean (toF32 mic)) (zeroMean (toF32 ref)) lag ≤ epsEnergy)) :
    (estimateLagNormalizedCal (mic.map (fun v => c * v)) ref sr mlms an).lagSamples
      = (estimateLagNormalizedCal mic ref sr mlms an).lagSamples ∧
    Score.toE (estimateLagNormalizedCal (mic.map (fun v => c * v))
        ref sr mlms an).score
      = Score.toE (estimateLagNormalizedCal mic ref sr mlms an).score := by
  have hx : zeroMean (toF32 (mic.map (fun v => c * v))) =
      (zeroMean (toF32 mic)).map (fun v => c * v) := zeroMean_smul c mic
  have hlen : (zeroMean (toF32 (mic.map (fun v => c * v)))).length =
      (zeroMean (toF32 mic)).length := by rw [hx, List.length_map]
  by_cases hshort : (zeroMean (toF32 mic)).length < 8 ∨
      (zeroMean (toF32 ref)).length < 8
  · have hshort2 : (zeroMean (toF32 (mic.map (fun v => c * v)))).length < 8 ∨
        (zeroMean (toF32 ref)).length < 8 := by
      rcases hshort with h | h
      · exact Or.inl (by omega)
      · exact Or.inr h
    rw [estimateLagNormalizedCal_short hshort,
      estimateLagNormalizedCal_short hshort2]
    exact ⟨rfl, rfl⟩
  · push_neg at hshort
    have hlong2 : 8 ≤ (zeroMean (toF32 (mic.map (fun v => c * v)))).length := by
      omega
    rw [estimateLagNormalizedCal_long hlong2 hshort.2,
      estimateLagNormalizedCal_long hshort.1 hshort.2, hx]
    set x := zeroMean (toF32 mic) with hxdef
    set y := zeroMean (toF32 ref) with hydef
    have hml : maxLagOf (x.map (fun v => c * v)) y sr mlms =
        maxLagOf x y sr mlms := by
      unfold maxLagOf
      rw [List.length_map]
    rw [lagSearch_lagSamples, lagSearch_lagSamples, lagSearch_score,
      lagSearch_score, hml]
    have hpair := searchFold_scale c hc (evalLagScore 16 x y)
      (evalLagScore 16 (x.map (fun v => c * v)) y)
      (lagList (maxLagOf x y sr mlms) an) ((0 : ℤ), Score.negInf)
      (fun l hl => evalLagScore_smul 16 c x y l (hcls l hl))
    simp only [Score.scale] at hpair
    rw [hpair]
    exact ⟨rfl, Score.toE_scale c hc _⟩

/-! Concrete probe evaluations for the C8 counterexample. -/

/-- A 16-sample alternating probe. -/
def altProbe : List ℚ :=
  [1, -1, 1, -1, 1, -1, 1, -1, 1, -1, 1, -1, 1, -1, 1, -1]

theorem zeroMean_altProbe : zeroMean altProbe = altProbe := by
  unfold zeroMean
  rw [show altProbe.sum = 0 by norm_num [altProbe]]
  simp

theorem yyAt_altProbe : yyAt altProbe altProbe 0 = 16 := by
  unfold yyAt
  rw [overlapLen_self_zero, Int.toNat_natCast]
  rw [show altProbe.length = 16 from rfl]
  simp [getQ, Finset.sum_range_succ, altProbe]
  norm_num

theorem evalLag_altProbe_zero :
    evalLagScore 16 altProbe altProbe 0 = Score.val 16 256 := by
  have h := evalLagScore_self_zero 16 altProbe (by norm_num [altProbe])
    (by rw [yyAt_altProbe]; norm_num [epsEnergy])
  rw [h, yyAt_altProbe]
  norm_num

theorem maxLag_altProbe : maxLagOf altProbe altProbe 1000 0 = 0 := by
  unfold maxLagOf
  norm_num [altProbe]

theorem lagList_zero_false : lagList 0 false = [0] := by
  simp [lagList, intRange, List.range_succ]

theorem estimate_altProbe :
    estimateLagNormalizedCal altProbe altProbe 1000 0 false =
      ⟨0, 0, Score.val 16 256⟩ := by
  rw [estimateLagNormalizedCal_long
      (by rw [zeroMean_length]; norm_num [toF32, altProbe])
      (by rw [zeroMean_length]; norm_num [toF32, altProbe]),
    show zeroMean (toF32 altProbe) = altProbe from zeroMean_altProbe]
  have hfold : (lagList (maxLagOf altProbe altProbe 1000 0) false).foldl
      (searchStep (evalLagScore 16 altProbe altProbe)) (0, Score.negInf) =
      ((0 : ℤ), Score.val 16 256) := by
    rw [maxLag_altProbe, lagList_zero_false, List.foldl_cons, List.foldl_nil]
    unfold searchStep
    rw [evalLag_altProbe_zero]
    rfl
  unfold lagSearch
  simp only [hfold]
  norm_num

theorem estimate_altProbe_scaled :
    estimateLagNormalizedCal (altProbe.map (fun v => (1/10^7 : ℚ) * v)) altProbe
      1000 0 false = ⟨0, 0, Score.negInf⟩ := by
  have hzs : zeroMean (toF32 (altProbe.map (fun v => (1/10^7 : ℚ) * v))) =
      altProbe.map (fun v => (1/10^7 : ℚ) * v) := by
    rw [show zeroMean (toF32 (altProbe.map (fun v => (1/10^7 : ℚ) * v))) =
        (zeroMean altProbe).map (fun v => (1/10^7 : ℚ) * v) from
          zeroMean_smul _ _,
      zeroMean_altProbe]
  rw [estimateLagNormalizedCal_long
      (by rw [hzs, List.length_map]; norm_num [altProbe])
      (by rw [zeroMean_length]; norm_num [toF32, altProbe]), hzs,
    show zeroMean (toF32 altProbe) = altProbe from zeroMean_altProbe]
  have heval : evalLagScore 16 (altProbe.map (fun v => (1/10^7 : ℚ) * v))
      altProbe 0 = Score.negInf := by
    unfold evalLagScore
    rw [overlapLen_smul, overlapLen_self_zero,
      if_neg (by norm_num [altProbe] : ¬ ((altProbe.length : ℤ) < 16)),
      if_pos]
    left
    rw [xxAt_smul, (dotAt_self_zero altProbe).2, yyAt_altProbe]
    norm_num [epsEnergy]
  have hml : maxLagOf (altProbe.map (fun v => (1/10^7 : ℚ) * v)) altProbe
      1000 0 = 0 := by
    unfold maxLagOf
    rw [List.length_map]
    norm_num [altProbe]
  have hfold : (lagList (maxLagOf (altProbe.map (fun v => (1/10^7 : ℚ) * v))
        altProbe 1000 0) false).foldl
      (searchStep (evalLagScore 16 (altProbe.map (fun v => (1/10^7 : ℚ) * v))
        altProbe)) (0, Score.negInf) = ((0 : ℤ), Score.negInf) := by
    rw [hml, lagList_zero_false, List.foldl_cons, List.foldl_nil]
    unfold searchStep
    rw [heval]
    rfl
  unfold lagSearch
  simp only [hfold]
  norm_num

/-- Counterexample to C8 as stated: the 16-sample alternating probe matched
against itself scores exactly 1 (as `Score.val 16 256`), but scaling the
mic input by the positive constant `c = 1e-7` drops the lag-0 overlap
energy to `1.6e-13 ≤ 1e-12`, so the candidate is rejected and the returned
score becomes `-Infinity` — the score is not left unchanged. -/
theorem C8_scale_invariance_cex :
    (estimateLagNormalizedCal altProbe altProbe 1000 0 false).score =
      Score.val 16 256 ∧
    (estimateLagNormalizedCal (altProbe.map (fun v => (1/10^7 : ℚ) * v))
        altProbe 1000 0 false).score = Score.negInf ∧
    Score.toE (Score.val 16 256) ≠ Score.toE Score.negInf := by
  refine ⟨by rw [estimate_altProbe], by rw [estimate_altProbe_scaled], ?_⟩
  exact (Score.bot_lt_toE (by simp)).ne'

/-- Witness for C8: scaling the probe by `c = 2` at a configuration whose
only candidate lag is 0, where the energy classification is unchanged. -/
theorem C8_scale_invariance_witness :
    (0:ℚ) < 2 ∧
    ((estimateLagNormalizedCal (altProbe.map (fun v => (2:ℚ) * v)) altProbe
        1000 0 false).lagSamples
      = (estimateLagNormalizedCal altProbe altProbe 1000 0 false).lagSamples ∧
    Score.toE (estimateLagNormalizedCal (altProbe.map (fun v => (2:ℚ) * v))
        altProbe 1000 0 false).score
      = Score.toE (estimateLagNormalizedCal altProbe altProbe
        1000 0 false).score) :=
  ⟨by norm_num,
    C8_scale_invariance altProbe altProbe 1000 0 2 false (by norm_num)
      (by
        intro lag hlag
        rw [show zeroMean (toF32 altProbe) = altProbe from zeroMean_altProbe,
          maxLag_altProbe, lagList_zero_false, List.mem_singleton] at hlag
        subst hlag
        rw [show zeroMean (toF32 altProbe) = altProbe from zeroMean_altProbe,
          (dotAt_self_zero altProbe).2, yyAt_altProbe]
        norm_num [epsEnergy])⟩

/-! Tie-breaking of the scan (claim C4). -/

theorem lagList_pairwise (m : ℤ) (an : Bool) :
    (lagList m an).Pairwise (· < ·) := by
  unfold lagList
  split
  · exact intRange_pairwise _ _
  · exact intRange_pairwise _ _

/-- Claim C4 (corrected).  When the scan returns a real (non `-Infinity`)
score, the returned lag is the FIRST maximizer in scan order: it attains
the maximal score, and every strictly smaller scanned lag scores strictly
lower.  Hence ties are broken towards the least scanned lag.  In the
default non-negative mode all scanned lags are ≥ 0, so this is the
smallest |τ| among tied maximizers, as claimed; but in `allowNegative`
mode the scan runs over `-maxLag..maxLag` and returns the MOST NEGATIVE
tied maximizer, which need not have the smallest |τ| (see the
counterexample). -/
theorem C4_tie_break (mic ref : List ℚ) (sr mlms : ℚ) (an : Bool)
    (h1 : 8 ≤ (zeroMean (toF32 mic)).length)
    (h2 : 8 ≤ (zeroMean (toF32 ref)).length)
    (hne : (estimateLagNormalizedCal mic ref sr mlms an).score ≠ Score.negInf) :
    (estimateLagNormalizedCal mic ref sr mlms an).lagSamples ∈
      lagList (maxLagOf (zeroMean (toF32 mic)) (zeroMean (toF32 ref)) sr mlms) an ∧
    (estimateLagNormalizedCal mic ref sr mlms an).score =
      evalLagScore 16 (zeroMean (toF32 mic)) (zeroMean (toF32 ref))
        (estimateLagNormalizedCal mic ref sr mlms an).lagSamples ∧
    (∀ l ∈ lagList (maxLagOf (zeroMean (toF32 mic)) (zeroMean (toF32 ref)) sr mlms) an,
      Score.toE (evalLagScore 16 (zeroMean (toF32 mic)) (zeroMean (toF32 ref)) l) ≤
        Score.toE (estimateLagNormalizedCal mic ref sr mlms an).score) ∧
    (∀ l ∈ lagList (maxLagOf (zeroMean (toF32 mic)) (zeroMean (toF32 ref)) sr mlms) an,
      Score.toE (evalLagScore 16 (zeroMean (toF32 mic)) (zeroMean (toF32 ref)) l) =
        Score.toE (estimateLagNormalizedCal mic ref sr mlms an).score →
      (estimateLagNormalizedCal mic ref sr mlms an).lagSamples ≤ l) ∧
    (an = false →
      ∀ l ∈ lagList (maxLagOf (zeroMean (toF32 mic)) (zeroMean (toF32 ref)) sr mlms) an,
        Score.toE (evalLagScore 16 (zeroMean (toF32 mic)) (zeroMean (toF32 ref)) l) =
          Score.toE (estimateLagNormalizedCal mic ref sr mlms an).score →
        (estimateLagNormalizedCal mic ref sr mlms an).lagSamples.natAbs ≤ l.natAbs) := by
  rw [estimateLagNormalizedCal_long h1 h2] at hne ⊢
  set x := zeroMean (toF32 mic) with hxdef
  set y := zeroMean (toF32 ref) with hydef
  rw [lagSearch_score] at hne
  rw [lagSearch_lagSamples, lagSearch_score]
  set f := evalLagScore 16 x y with hfdef
  set lags := lagList (maxLagOf x y sr mlms) an with hlagsdef
  set b := lags.foldl (searchStep f) (0, Score.negInf) with hbdef
  have hfpe : ∀ l, (f l).PosEnergy := fun l => evalLagScore_posEnergy 16 x y l
  have hbpe : b.2.PosEnergy :=
    searchFold_posEnergy hfpe lags (0, Score.negInf) trivial
  have hmem : b.1 ∈ lags ∧ b.2 = f b.1 := by
    rcases searchFold_shape f lags (0, Score.negInf) with h | ⟨m, hm, h⟩
    · rw [← hbdef] at h
      rw [h] at hne
      exact absurd rfl hne
    · rw [← hbdef] at h
      rw [h]
      exact ⟨hm, rfl⟩
  have hmax := (searchFold_max hfpe lags (0, Score.negInf) trivial).2
  have hfirst := searchFold_first hfpe lags (0, Score.negInf) trivial
    (lagList_pairwise _ _) (Or.inl rfl)
  rw [← hbdef] at hmax hfirst
  have htie : ∀ l ∈ lags, Score.toE (f l) = Score.toE b.2 → b.1 ≤ l := by
    intro l hl heq
    by_contra hlt
    push_neg at hlt
    rcases hfirst l hl hlt with hstrict | ⟨_, hbot⟩
    · rw [heq] at hstrict
      exact absurd hstrict (lt_irrefl _)
    · exact hne hbot
  refine ⟨hmem.1, hmem.2, hmax, htie, ?_⟩
  intro han l hl heq
  have hble := htie l hl heq
  have hmem2 := hmem.1
  rw [hlagsdef] at hl hmem2
  unfold lagList at hl hmem2
  rw [han] at hl hmem2
  simp only [Bool.false_eq_true, if_false] at hl hmem2
  have hb1 := mem_intRange.1 hmem2
  have hlb := mem_intRange.1 hl
  omega

/-! Concrete period-2 probe for the C4 counterexample: 18 alternating
samples, so lags -2, 0 and 2 all attain perfect correlation 1 and the
`allowNegative` scan returns -2, not the smallest-|τ| tied maximizer 0. -/

/-- An 18-sample alternating (period-2) probe. -/
def perProbe : List ℚ :=
  [1, -1, 1, -1, 1, -1, 1, -1, 1, -1, 1, -1, 1, -1, 1, -1, 1, -1]

theorem zeroMean_perProbe : zeroMean perProbe = perProbe := by
  unfold zeroMean
  rw [show perProbe.sum = 0 by norm_num [perProbe]]
  simp

theorem evalLag_pp_m2 :
    evalLagScore 16 perProbe perProbe (-2) = Score.val 16 256 := by
  have hov : overlapLen perProbe perProbe (-2) = 16 := by
    norm_num [overlapLen, perProbe, min_def, max_def]
  have hdot : dotAt perProbe perProbe (-2) = 16 := by
    unfold dotAt
    rw [hov]
    simp [getQ, perProbe, Finset.sum_range_succ]
    norm_num
  have hxx : xxAt perProbe perProbe (-2) = 16 := by
    unfold xxAt
    rw [hov]
    simp [getQ, perProbe, Finset.sum_range_succ]
    norm_num
  have hyy : yyAt perProbe perProbe (-2) = 16 := by
    unfold yyAt
    rw [hov]
    simp [getQ, perProbe, Finset.sum_range_succ]
    norm_num
  unfold evalLagScore
  rw [hov, hdot, hxx, hyy]
  norm_num [epsEnergy]

theorem evalLag_pp_m1 :
    evalLagScore 16 perProbe perProbe (-1) = Score.val (-17) 289 := by
  have hov : overlapLen perProbe perProbe (-1) = 17 := by
    norm_num [overlapLen, perProbe, min_def, max_def]
  have hdot : dotAt perProbe perProbe (-1) = -17 := by
    unfold dotAt
    rw [hov]
    simp [getQ, perProbe, Finset.sum_range_succ]
    norm_num
  have hxx : xxAt perProbe perProbe (-1) = 17 := by
    unfold xxAt
    rw [hov]
    simp [getQ, perProbe, Finset.sum_range_succ]
    norm_num
  have hyy : yyAt perProbe perProbe (-1) = 17 := by
    unfold yyAt
    rw [hov]
    simp [getQ, perProbe, Finset.sum_range_succ]
    norm_num
  unfold evalLagScore
  rw [hov, hdot, hxx, hyy]
  norm_num [epsEnergy]

theorem evalLag_pp_p0 :
    evalLagScore 16 perProbe perProbe 0 = Score.val 18 324 := by
  have hov : overlapLen perProbe perProbe 0 = 18 := by
    norm_num [overlapLen, perProbe, min_def, max_def]
  have hdot : dotAt perProbe perProbe 0 = 18 := by
    unfold dotAt
    rw [hov]
    simp [getQ, perProbe, Finset.sum_range_succ]
    norm_num
  have hxx : xxAt perProbe perProbe 0 = 18 := by
    unfold xxAt
    rw [hov]
    simp [getQ, perProbe, Finset.sum_range_succ]
    norm_num
  have hyy : yyAt perProbe perProbe 0 = 18 := by
    unfold yyAt
    rw [hov]
    simp [getQ, perProbe, Finset.sum_range_succ]
    norm_num
  unfold evalLagScore
  rw [hov, hdot, hxx, hyy]
  norm_num [epsEnergy]

theorem evalLag_pp_p1 :
    evalLagScore 16 perProbe perProbe 1 = Score.val (-17) 289 := by
  have hov : overlapLen perProbe perProbe 1 = 17 := by
    norm_num [overlapLen, perProbe, min_def, max_def]
  have hdot : dotAt perProbe perProbe 1 = -17 := by
    unfold dotAt
    rw [hov]
    simp [getQ, perProbe, Finset.sum_range_succ]
    norm_num
  have hxx : xxAt perProbe perProbe 1 = 17 := by
    unfold xxAt
    rw [hov]
    simp [getQ, perProbe, Finset.sum_range_succ]
    norm_num
  have hyy : yyAt perProbe perProbe 1 = 17 := by
    unfold yyAt
    rw [hov]
    simp [getQ, perProbe, Finset.sum_range_succ]
    norm_num
  unfold evalLagScore
  rw [hov, hdot, hxx, hyy]
  norm_num [epsEnergy]

theorem evalLag_pp_p2 :
    evalLagScore 16 perProbe perProbe 2 = Score.val 16 256 := by
  have hov : overlapLen perProbe perProbe 2 = 16 := by
    norm_num [overlapLen, perProbe, min_def, max_def]
  have hdot : dotAt perProbe perProbe 2 = 16 := by
    unfold dotAt
    rw [hov]
    simp [getQ, perProbe, Finset.sum_range_succ]
    norm_num
  have hxx : xxAt perProbe perProbe 2 = 16 := by
    unfold xxAt
    rw [hov]
    simp [getQ, perProbe, Finset.sum_range_succ]
    norm_num
  have hyy : yyAt perProbe perProbe 2 = 16 := by
    unfold yyAt
    rw [hov]
    simp [getQ, perProbe, Finset.sum_range_succ]
    norm_num
  unfold evalLagScore
  rw [hov, hdot, hxx, hyy]
  norm_num [epsEnergy]

theorem maxLag_perProbe : maxLagOf perProbe perProbe 1000 2 = 2 := by
  norm_num [maxLagOf, perProbe, min_def]

theorem lagList_perProbe : lagList (2 : ℤ) true = [-2, -1, 0, 1, 2] := by decide

theorem estimate_perProbe :
    estimateLagNormalizedCal perProbe perProbe 1000 2 true =
      ⟨-2, -2, Score.val 16 256⟩ := by
  rw [estimateLagNormalizedCal_long
      (by rw [zeroMean_length]; norm_num [toF32, perProbe])
      (by rw [zeroMean_length]; norm_num [toF32, perProbe]),
    show zeroMean (toF32 perProbe) = perProbe from zeroMean_perProbe]
  have s1 : searchStep (evalLagScore 16 perProbe perProbe)
      ((0 : ℤ), Score.negInf) (-2) = ((-2 : ℤ), Score.val 16 256) := by
    unfold searchStep
    rw [evalLag_pp_m2]
    rfl
  have s2 : searchStep (evalLagScore 16 perProbe perProbe)
      ((-2 : ℤ), Score.val 16 256) (-1) = ((-2 : ℤ), Score.val 16 256) := by
    unfold searchStep
    rw [evalLag_pp_m1, if_neg]
    norm_num [Score.gt, decide_eq_true_eq]
  have s3 : searchStep (evalLagScore 16 perProbe perProbe)
      ((-2 : ℤ), Score.val 16 256) 0 = ((-2 : ℤ), Score.val 16 256) := by
    unfold searchStep
    rw [evalLag_pp_p0, if_neg]
    norm_num [Score.gt, decide_eq_true_eq]
  have s4 : searchStep (evalLagScore 16 perProbe perProbe)
      ((-2 : ℤ), Score.val 16 256) 1 = ((-2 : ℤ), Score.val 16 256) := by
    unfold searchStep
    rw [evalLag_pp_p1, if_neg]
    norm_num [Score.gt, decide_eq_true_eq]
  have s5 : searchStep (evalLagScore 16 perProbe perProbe)
      ((-2 : ℤ), Score.val 16 256) 2 = ((-2 : ℤ), Score.val 16 256) := by
    unfold searchStep
    rw [evalLag_pp_p2, if_neg]
    norm_num [Score.gt, decide_eq_true_eq]
  have hfold : (lagList (maxLagOf perProbe perProbe 1000 2) true).foldl
      (searchStep (evalLagScore 16 perProbe perProbe)) (0, Score.negInf) =
      ((-2 : ℤ), Score.val 16 256) := by
    rw [maxLag_perProbe, lagList_perProbe, List.foldl_cons, s1, List.foldl_cons,
      s2, List.foldl_cons, s3, List.foldl_cons, s4, List.foldl_cons, s5,
      List.foldl_nil]
  unfold lagSearch
  simp only [hfold]
  norm_num

/-- Counterexample to C4 as stated: with the 18-sample period-2 probe as
both inputs, `allowNegative = true`, sampleRate 1000 and maxLagMs 2, the
scanned lags are -2..2; lags -2, 0, 2 tie at the maximal score (perfect
correlation), and the scan returns -2 — not the tied maximizer 0 with the
smallest absolute value. -/
theorem C4_tie_break_cex :
    (estimateLagNormalizedCal perProbe perProbe 1000 2 true).lagSamples = -2 ∧
    (∀ l ∈ lagList (maxLagOf (zeroMean (toF32 perProbe))
        (zeroMean (toF32 perProbe)) 1000 2) true,
      Score.gt (evalLagScore 16 (zeroMean (toF32 perProbe))
          (zeroMean (toF32 perProbe)) l)
        (estimateLagNormalizedCal perProbe perProbe 1000 2 true).score = false) ∧
    Score.gt (evalLagScore 16 (zeroMean (toF32 perProbe))
        (zeroMean (toF32 perProbe)) 0)
      (estimateLagNormalizedCal perProbe perProbe 1000 2 true).score = false ∧
    Score.gt (estimateLagNormalizedCal perProbe perProbe 1000 2 true).score
      (evalLagScore 16 (zeroMean (toF32 perProbe))
        (zeroMean (toF32 perProbe)) 0) = false ∧
    (0 : ℤ).natAbs < (-2 : ℤ).natAbs := by
  rw [show zeroMean (toF32 perProbe) = perProbe from zeroMean_perProbe,
    estimate_perProbe, maxLag_perProbe, lagList_perProbe]
  refine ⟨rfl, ?_, ?_, ?_, by decide⟩
  · intro l hl
    fin_cases hl <;>
      first
        | (rw [show (⟨-2, -2, Score.val 16 256⟩ : LagEstimate).score =
              Score.val 16 256 from rfl, evalLag_pp_m2]
           norm_num [Score.gt, decide_eq_true_eq])
        | (rw [show (⟨-2, -2, Score.val 16 256⟩ : LagEstimate).score =
              Score.val 16 256 from rfl, evalLag_pp_m1]
           norm_num [Score.gt, decide_eq_true_eq])
        | (rw [show (⟨-2, -2, Score.val 16 256⟩ : LagEstimate).score =
              Score.val 16 256 from rfl, evalLag_pp_p0]
           norm_num [Score.gt, decide_eq_true_eq])
        | (rw [show (⟨-2, -2, Score.val 16 256⟩ : LagEstimate).score =
              Score.val 16 256 from rfl, evalLag_pp_p1]
           norm_num [Score.gt, decide_eq_true_eq])
        | (rw [show (⟨-2, -2, Score.val 16 256⟩ : LagEstimate).score =
              Score.val 16 256 from rfl, evalLag_pp_p2]
           norm_num [Score.gt, decide_eq_true_eq])
  · rw [show (⟨-2, -2, Score.val 16 256⟩ : LagEstimate).score =
        Score.val 16 256 from rfl, evalLag_pp_p0]
    norm_num [Score.gt, decide_eq_true_eq]
  · rw [show (⟨-2, -2, Score.val 16 256⟩ : LagEstimate).score =
        Score.val 16 256 from rfl, evalLag_pp_p0]
    norm_num [Score.gt, decide_eq_true_eq]

/-- Witness for C4: the alternating probe against itself in the default
non-negative mode; the returned score is real, so the theorem applies. -/
theorem C4_tie_break_witness :
    (8 ≤ (zeroMean (toF32 altProbe)).length) ∧
    ((estimateLagNormalizedCal altProbe altProbe 1000 0 false).score ≠
      Score.negInf) ∧
    (estimateLagNormalizedCal altProbe altProbe 1000 0 false).lagSamples ∈
      lagList (maxLagOf (zeroMean (toF32 altProbe))
        (zeroMean (toF32 altProbe)) 1000 0) false :=
  ⟨by rw [zeroMean_length]; norm_num [toF32, altProbe],
   by rw [estimate_altProbe]; simp,
   (C4_tie_break altProbe altProbe 1000 0 false
      (by rw [zeroMean_length]; norm_num [toF32, altProbe])
      (by rw [zeroMean_length]; norm_num [toF32, altProbe])
      (by rw [estimate_altProbe]; simp)).1⟩

/-! Equivalence of the two `estimateLagNormalized` implementations
(claim C9). -/

theorem overlapLen_le (x y : List ℚ) (lag : ℤ) :
    overlapLen x y lag ≤ (y.length : ℤ) := by
  unfold overlapLen
  omega

theorem evalLagScore_minOverlap_agree (x y : List ℚ) (lag : ℤ)
    (h : ¬ (8 ≤ overlapLen x y lag ∧ overlapLen x y lag < 16)) :
    evalLagScore 8 x y lag = evalLagScore 16 x y lag := by
  unfold evalLagScore
  by_cases h8 : overlapLen x y lag < 8
  · rw [if_pos h8, if_pos (show overlapLen x y lag < 16 by omega)]
  · rw [if_neg h8, if_neg (show ¬ (overlapLen x y lag < 16) by omega)]

theorem lagSearch_minOverlap_agree (x y : List ℚ) (sr mlms : ℚ) (an : Bool)
    (h : ∀ lag ∈ lagList (maxLagOf x y sr mlms) an,
      ¬ (8 ≤ overlapLen x y lag ∧ overlapLen x y lag < 16)) :
    lagSearch 8 x y sr mlms an = lagSearch 16 x y sr mlms an := by
  have hfold : ∀ (l : List ℤ) (init : ℤ × Score),
      (∀ lag ∈ l, ¬ (8 ≤ overlapLen x y lag ∧ overlapLen x y lag < 16)) →
      l.foldl (searchStep (evalLagScore 8 x y)) init =
        l.foldl (searchStep (evalLagScore 16 x y)) init := by
    intro l
    induction l with
    | nil => intro init _; rfl
    | cons a as ih =>
      intro init hmem
      rw [List.foldl_cons, List.foldl_cons]
      have hstep : searchStep (evalLagScore 8 x y) init a =
          searchStep (evalLagScore 16 x y) init a := by
        unfold searchStep
        rw [evalLagScore_minOverlap_agree x y a (hmem a (List.mem_cons_self ..))]
      rw [hstep]
      exact ih _ (fun m hm => hmem m (List.mem_cons_of_mem _ hm))
  have hb := hfold (lagList (maxLagOf x y sr mlms) an) (0, Score.negInf) h
  unfold lagSearch
  rw [hb]

/-- Claim C9 (corrected).  The two `estimateLagNormalized` implementations
agree whenever no scanned candidate lag has overlap length in the band
`[8, 16)` where their minimum-overlap guards differ; in general they are
NOT equivalent — on inputs where the best candidate's overlap falls in
that band the recorder-utils version (minimum 8) accepts it while the
calibration version (minimum 16) rejects it (see the counterexample). -/
theorem C9_impl_agree (mic ref : List ℚ) (sr mlms : ℚ) (an : Bool)
    (h : ∀ lag ∈ lagList (maxLagOf (zeroMean (toF32 mic))
        (zeroMean (toF32 ref)) sr mlms) an,
      ¬ (8 ≤ overlapLen (zeroMean (toF32 mic)) (zeroMean (toF32 ref)) lag ∧
        overlapLen (zeroMean (toF32 mic)) (zeroMean (toF32 ref)) lag < 16)) :
    estimateLagNormalizedRU mic ref sr mlms an =
      estimateLagNormalizedCal mic ref sr mlms an := by
  by_cases hshort : (zeroMean (toF32 mic)).length < 8 ∨
      (zeroMean (toF32 ref)).length < 8
  · rw [estimateLagNormalizedRU_short hshort,
      estimateLagNormalizedCal_short hshort]
  · push_neg at hshort
    rw [estimateLagNormalizedRU_long hshort.1 hshort.2,
      estimateLagNormalizedCal_long hshort.1 hshort.2]
    exact lagSearch_minOverlap_agree _ _ _ _ _ h

/-- A 10-sample alternating probe: all candidate overlaps lie below 16, so
the two implementations diverge on it. -/
def alt10 : List ℚ := [1, -1, 1, -1, 1, -1, 1, -1, 1, -1]

theorem zeroMean_alt10 : zeroMean alt10 = alt10 := by
  unfold zeroMean
  rw [show alt10.sum = 0 by norm_num [alt10]]
  simp

theorem yyAt_alt10 : yyAt alt10 alt10 0 = 10 := by
  unfold yyAt
  rw [overlapLen_self_zero, Int.toNat_natCast, show alt10.length = 10 from rfl]
  simp [getQ, Finset.sum_range_succ, alt10]
  norm_num

theorem evalLag_alt10_zero :
    evalLagScore 8 alt10 alt10 0 = Score.val 10 100 := by
  have h := evalLagScore_self_zero 8 alt10 (by norm_num [alt10])
    (by rw [yyAt_alt10]; norm_num [epsEnergy])
  rw [h, yyAt_alt10]
  norm_num

theorem evalLag_alt10_one :
    evalLagScore 8 alt10 alt10 1 = Score.val (-9) 81 := by
  have hov : overlapLen alt10 alt10 1 = 9 := by
    norm_num [overlapLen, alt10, min_def, max_def]
  have hdot : dotAt alt10 alt10 1 = -9 := by
    unfold dotAt
    rw [hov]
    simp [getQ, alt10, Finset.sum_range_succ]
    norm_num
  have hxx : xxAt alt10 alt10 1 = 9 := by
    unfold xxAt
    rw [hov]
    simp [getQ, alt10, Finset.sum_range_succ]
    norm_num
  have hyy : yyAt alt10 alt10 1 = 9 := by
    unfold yyAt
    rw [hov]
    simp [getQ, alt10, Finset.sum_range_succ]
    norm_num
  unfold evalLagScore
  rw [hov, hdot, hxx, hyy]
  norm_num [epsEnergy]

theorem maxLag_alt10 : maxLagOf alt10 alt10 1000 1 = 1 := by
  norm_num [maxLagOf, alt10, min_def]

theorem lagList_one_false : lagList 1 false = [0, 1] := by decide

theorem estimateRU_alt10 :
    estimateLagNormalizedRU alt10 alt10 1000 1 false =
      ⟨0, 0, Score.val 10 100⟩ := by
  rw [estimateLagNormalizedRU_long
      (by rw [zeroMean_length]; norm_num [toF32, alt10])
      (by rw [zeroMean_length]; norm_num [toF32, alt10]),
    show zeroMean (toF32 alt10) = alt10 from zeroMean_alt10]
  have s1 : searchStep (evalLagScore 8 alt10 alt10)
      ((0 : ℤ), Score.negInf) 0 = ((0 : ℤ), Score.val 10 100) := by
    unfold searchStep
    rw [evalLag_alt10_zero]
    rfl
  have s2 : searchStep (evalLagScore 8 alt10 alt10)
      ((0 : ℤ), Score.val 10 100) 1 = ((0 : ℤ), Score.val 10 100) := by
    unfold searchStep
    rw [evalLag_alt10_one, if_neg]
    norm_num [Score.gt, decide_eq_true_eq]
  have hfold : (lagList (maxLagOf alt10 alt10 1000 1) false).foldl
      (searchStep (evalLagScore 8 alt10 alt10)) (0, Score.negInf) =
      ((0 : ℤ), Score.val 10 100) := by
    rw [maxLag_alt10, lagList_one_false, List.foldl_cons, s1, List.foldl_cons,
      s2, List.foldl_nil]
  unfold lagSearch
  simp only [hfold]
  norm_num

theorem estimateCal_alt10 :
    estimateLagNormalizedCal alt10 alt10 1000 1 false =
      ⟨0, 0, Score.negInf⟩ := by
  rw [estimateLagNormalizedCal_long
      (by rw [zeroMean_length]; norm_num [toF32, alt10])
      (by rw [zeroMean_length]; norm_num [toF32, alt10]),
    show zeroMean (toF32 alt10) = alt10 from zeroMean_alt10]
  apply lagSearch_all_negInf
  intro lag
  unfold evalLagScore
  rw [if_pos]
  have h := overlapLen_le alt10 alt10 lag
  rw [show ((alt10.length : ℤ)) = 10 from rfl] at h
  omega

/-- Counterexample to C9 as stated: on a 10-sample alternating probe (every
candidate overlap is at most 10) at sampleRate 1000 with maxLagMs 1, the
recorder-utils implementation (minimum overlap 8) finds the perfect lag-0
correlation and returns score `val 10 100` (denoting 1), while the
calibration implementation (minimum overlap 16) rejects every candidate
and returns score `-Infinity`; the two results differ. -/
theorem C9_impl_agree_cex :
    estimateLagNormalizedRU alt10 alt10 1000 1 false =
      ⟨0, 0, Score.val 10 100⟩ ∧
    estimateLagNormalizedCal alt10 alt10 1000 1 false =
      ⟨0, 0, Score.negInf⟩ ∧
    estimateLagNormalizedRU alt10 alt10 1000 1 false ≠
      estimateLagNormalizedCal alt10 alt10 1000 1 false := by
  refine ⟨estimateRU_alt10, estimateCal_alt10, ?_⟩
  rw [estimateRU_alt10, estimateCal_alt10]
  simp

/-- Witness for C9: the 16-sample alternating probe, whose only scanned
candidate (lag 0) has overlap 16, outside the divergence band `[8, 16)`. -/
theorem C9_impl_agree_witness :
    (∀ lag ∈ lagList (maxLagOf (zeroMean (toF32 altProbe))
        (zeroMean (toF32 altProbe)) 1000 0) false,
      ¬ (8 ≤ overlapLen (zeroMean (toF32 altProbe))
          (zeroMean (toF32 altProbe)) lag ∧
        overlapLen (zeroMean (toF32 altProbe))
          (zeroMean (toF32 altProbe)) lag < 16)) ∧
    estimateLagNormalizedRU altProbe altProbe 1000 0 false =
      estimateLagNormalizedCal altProbe altProbe 1000 0 false :=
  ⟨by
    intro lag hlag
    rw [show zeroMean (toF32 altProbe) = altProbe from zeroMean_altProbe] at hlag ⊢
    rw [maxLag_altProbe, lagList_zero_false, List.mem_singleton] at hlag
    subst hlag
    rw [overlapLen_self_zero]
    norm_num [altProbe],
   C9_impl_agree altProbe altProbe 1000 0 false (by
    intro lag hlag
    rw [show zeroMean (toF32 altProbe) = altProbe from zeroMean_altProbe] at hlag ⊢
    rw [maxLag_altProbe, lagList_zero_false, List.mem_singleton] at hlag
    subst hlag
    rw [overlapLen_self_zero]
    norm_num [altProbe])⟩

/-! Frame property of `estimateLagNormalized` (claim C10). -/

theorem store_getD_append (σ : Store) (b : List ℚ) (j : ℕ) (hj : j < σ.length) :
    (σ ++ [b]).getD j [] = σ.getD j [] :=
  List.getD_append σ [b] [] j hj

theorem store_getD_concat (σ : Store) (b : List ℚ) :
    (σ ++ [b]).getD σ.length [] = b := by
  rw [List.getD_eq_getElem?_getD, List.getElem?_concat_length]
  rfl

theorem store_getD_set_ne (σ : Store) (i j : ℕ) (v : List ℚ) (h : i ≠ j) :
    (σ.set i v).getD j [] = σ.getD j [] := by
  rw [List.getD_eq_getElem?_getD, List.getD_eq_getElem?_getD,
    List.getElem?_set_ne h]

theorem store_getD_set_self (σ : Store) (i : ℕ) (v : List ℚ) (h : i < σ.length) :
    (σ.set i v).getD i [] = v := by
  rw [List.getD_eq_getElem?_getD, List.getElem?_set_self h]
  rfl

/-- Claim C10 (confirmed).  `estimateLagNormalized` never mutates its `mic`
or `ref` argument buffers: `toF32` copies each into a fresh buffer and the
in-place DC removal (`zeroMean`) writes only to the copies.  In the store
model, after the call both argument buffers still hold their original
contents, and the returned estimate is the pure function of those original
contents. -/
theorem C10_no_mutation (σ : Store) (micR refR : ℕ) (sr mlms : ℚ) (an : Bool)
    (hm : micR < σ.length) (hr : refR < σ.length) :
    (estimateLagNormalizedCalS σ micR refR sr mlms an).1.getD micR [] =
      σ.getD micR [] ∧
    (estimateLagNormalizedCalS σ micR refR sr mlms an).1.getD refR [] =
      σ.getD refR [] ∧
    (estimateLagNormalizedCalS σ micR refR sr mlms an).2 =
      estimateLagNormalizedCal (σ.getD micR []) (σ.getD refR []) sr mlms an := by
  unfold estimateLagNormalizedCalS toF32S zeroMeanS
  simp only [List.length_append, List.length_set, List.length_cons,
    List.length_nil]
  have hlen1 : σ.length + (0 + 1) = σ.length + 1 := by omega
  rw [hlen1]
  have hxR : σ.length < σ.length + 1 + 1 := by omega
  have hyR : σ.length + 1 < σ.length + 1 + 1 := by omega
  have hb : ((σ ++ [σ.getD micR []]) ++ [(σ ++ [σ.getD micR []]).getD refR []])
      = (σ ++ [σ.getD micR []]) ++ [σ.getD refR []] := by
    rw [store_getD_append σ _ refR hr]
  rw [hb]
  set A := σ.getD micR [] with hA
  set B := σ.getD refR [] with hB
  have e1 : ((σ ++ [A]) ++ [B]).getD σ.length [] = A := by
    rw [store_getD_append (σ ++ [A]) B σ.length (by simp), store_getD_concat]
  rw [e1]
  set σ3 := ((σ ++ [A]) ++ [B]).set σ.length (zeroMean A) with hσ3
  have e2 : σ3.getD (σ.length + 1) [] = B := by
    rw [hσ3, store_getD_set_ne _ _ _ _ (by omega)]
    have h := store_getD_concat (σ ++ [A]) B
    simpa using h
  rw [e2]
  set σ4 := σ3.set (σ.length + 1) (zeroMean B) with hσ4
  have e5 : σ4.getD σ.length [] = zeroMean A := by
    rw [hσ4, store_getD_set_ne _ _ _ _ (by omega), hσ3,
      store_getD_set_self _ _ _ (by simp)]
  have e6 : σ4.getD (σ.length + 1) [] = zeroMean B := by
    rw [hσ4, store_getD_set_self _ _ _ (by rw [hσ3]; simp)]
  refine ⟨?_, ?_, ?_⟩
  · rw [hσ4, store_getD_set_ne _ _ _ _ (by omega), hσ3,
      store_getD_set_ne _ _ _ _ (by omega),
      store_getD_append _ _ micR (by simp; omega),
      store_getD_append _ _ micR hm]
  · rw [hσ4, store_getD_set_ne _ _ _ _ (by omega), hσ3,
      store_getD_set_ne _ _ _ _ (by omega),
      store_getD_append _ _ refR (by simp; omega),
      store_getD_append _ _ refR hr]
  · rw [e5, e6]
    unfold estimateLagNormalizedCal toF32
    rfl

/-- Witness for C10: a two-buffer store; both argument buffers are intact
after the call and the result matches the pure estimator. -/
theorem C10_no_mutation_witness :
    (0 < ([[(1:ℚ), 2], [3, 4]] : Store).length) ∧
    (1 < ([[(1:ℚ), 2], [3, 4]] : Store).length) ∧
    ((estimateLagNormalizedCalS [[(1:ℚ), 2], [3, 4]] 0 1 48000 120 false).1.getD 0 []
        = ([[(1:ℚ), 2], [3, 4]] : Store).getD 0 [] ∧
      (estimateLagNormalizedCalS [[(1:ℚ), 2], [3, 4]] 0 1 48000 120 false).1.getD 1 []
        = ([[(1:ℚ), 2], [3, 4]] : Store).getD 1 [] ∧
      (estimateLagNormalizedCalS [[(1:ℚ), 2], [3, 4]] 0 1 48000 120 false).2
        = estimateLagNormalizedCal (([[(1:ℚ), 2], [3, 4]] : Store).getD 0 [])
            (([[(1:ℚ), 2], [3, 4]] : Store).getD 1 []) 48000 120 false) :=
  ⟨by norm_num, by norm_num,
    C10_no_mutation [[(1:ℚ), 2], [3, 4]] 0 1 48000 120 false
      (by norm_num) (by norm_num)⟩
